import Mathlib

/-!
Verification development for the TMDB monthly backfill pipeline
(`src/movie.py` and its near-duplicate `movie.py` at the repository root).

The Python sources are shallowly embedded: pure helpers become Lean
functions, the network and the filesystem become explicit environment
values (an attempt trace for the HTTP fetcher, an abstract file state for
the checkpoint store), and the orchestrator loop becomes a recursive
function over the window list.  Dates are modelled after parsing
(`pd.to_datetime` is an external collaborator), machine floats used for
backoff are modelled as rationals, and JSON documents are modelled as an
abstract syntax tree.
-/

namespace TmdbPipeline

/-! ## String containment helper

Used to state "the file name contains the year range".  `leadsWith a b`
decides whether `a` is an initial segment of `b`; `charsContain n h`
decides whether `n` occurs contiguously inside `h`. -/

def leadsWith : List Char → List Char → Bool
  | [], _ => true
  | _ :: _, [] => false
  | a :: as, b :: bs => a == b && leadsWith as bs

def charsContain (needle : List Char) : List Char → Bool
  | [] => leadsWith needle []
  | c :: rest => leadsWith needle (c :: rest) || charsContain needle rest

def containsStr (hay sub : String) : Bool :=
  charsContain sub.toList hay.toList

theorem leadsWith_append (a b : List Char) : leadsWith a (a ++ b) = true := by
  induction a with
  | nil => rfl
  | cons c cs ih => simp [leadsWith, ih]

theorem charsContain_of_leadsWith (b hay : List Char) (h : leadsWith b hay = true) :
    charsContain b hay = true := by
  cases hay with
  | nil => exact h
  | cons c rest => simp [charsContain, h]

theorem charsContain_append_middle (x b y : List Char) :
    charsContain b (x ++ b ++ y) = true := by
  induction x with
  | nil =>
    rw [List.nil_append]
    exact charsContain_of_leadsWith b (b ++ y) (leadsWith_append b y)
  | cons c cs ih =>
    simp only [List.cons_append, charsContain, List.append_eq]
    rw [ih]
    simp

theorem string_toList_append (s t : String) :
    (s ++ t).toList = s.toList ++ t.toList := by
  cases s with
  | mk a =>
    cases t with
    | mk b => rfl

theorem containsStr_append_middle (x b y : String) :
    containsStr (x ++ b ++ y) b = true := by
  unfold containsStr
  rw [string_toList_append, string_toList_append]
  exact charsContain_append_middle x.toList b.toList y.toList

/-! ## Master output paths (claim C9)

`master_paths` embeds `src/movie.py` (the module under `src/`):

    year_from, year_to = start[:4], end[:4]
    suffix = year_from if year_from == year_to else f"{year_from}-{year_to}"
    return Path(f"tmdb_movies_{suffix}.csv"), Path(f"tmdb_movies_{suffix}.parquet")

The top-level duplicate script has no such function: it writes the master
outputs to the fixed module constants `MASTER_CSV` / `MASTER_PARQUET`,
independent of the requested range. -/

def master_paths (startDate endDate : String) : String × String :=
  let year_from := startDate.take 4
  let year_to := endDate.take 4
  let suffix := if year_from = year_to then year_from else year_from ++ "-" ++ year_to
  ("tmdb_movies_" ++ suffix ++ ".csv", "tmdb_movies_" ++ suffix ++ ".parquet")

def MASTER_CSV : String := "tmdb_movies_full25.csv"

def MASTER_PARQUET : String := "tmdb_movies_full25.parquet"

/-- Master output names of the top-level duplicate script, as a function of
the requested range: the range is ignored entirely. -/
def legacy_master_paths (_startDate _endDate : String) : String × String :=
  (MASTER_CSV, MASTER_PARQUET)

/-- Claim C9, counterexample.  The top-level duplicate script
(`movie.py`), run on the range 2021-01-01..2023-12-31, writes its master
outputs to the fixed names `tmdb_movies_full25.csv` / `.parquet`, which do
not contain the year range "2021-2023" required by the claim. -/
theorem master_paths_counterexample :
    legacy_master_paths "2021-01-01" "2023-12-31" =
      ("tmdb_movies_full25.csv", "tmdb_movies_full25.parquet")
    ∧ containsStr "tmdb_movies_full25.csv" "2021-2023" = false
    ∧ containsStr "tmdb_movies_full25.parquet" "2021-2023" = false := by
  refine ⟨rfl, ?_, ?_⟩ <;> decide

/-- Claim C9, amended.  For the runner under `src/` the two master output
names (one `.csv`, one `.parquet`) are derived from the requested range's
years: a same-year range yields names containing that year, a multi-year
range yields names containing `fromYear-toYear`. -/
theorem master_paths_amended (startDate endDate : String) :
    (startDate.take 4 = endDate.take 4 →
      containsStr (master_paths startDate endDate).1 (startDate.take 4) = true
      ∧ containsStr (master_paths startDate endDate).2 (startDate.take 4) = true)
    ∧ (startDate.take 4 ≠ endDate.take 4 →
      containsStr (master_paths startDate endDate).1
        (startDate.take 4 ++ "-" ++ endDate.take 4) = true
      ∧ containsStr (master_paths startDate endDate).2
        (startDate.take 4 ++ "-" ++ endDate.take 4) = true) := by
  constructor
  · intro h
    simp only [master_paths, if_pos h]
    exact ⟨containsStr_append_middle _ _ _, containsStr_append_middle _ _ _⟩
  · intro h
    simp only [master_paths, if_neg h]
    exact ⟨containsStr_append_middle _ _ _, containsStr_append_middle _ _ _⟩

/-- Witness for `master_paths_amended` at the ranges exercised by the
repository's tests. -/
theorem master_paths_amended_witness :
    ("2021-01-01" : String).take 4 ≠ ("2023-12-31" : String).take 4
    ∧ containsStr (master_paths "2021-01-01" "2023-12-31").1
        (("2021-01-01" : String).take 4 ++ "-" ++ ("2023-12-31" : String).take 4) = true
    ∧ containsStr (master_paths "2021-01-01" "2023-12-31").2
        (("2021-01-01" : String).take 4 ++ "-" ++ ("2023-12-31" : String).take 4) = true := by
  have h : ("2021-01-01" : String).take 4 ≠ ("2023-12-31" : String).take 4 := by decide
  exact ⟨h, (master_paths_amended "2021-01-01" "2023-12-31").2 h⟩

/-! ## JSON values and the checkpoint store (claims C5, C6)

`JsonVal` is the abstract syntax of a parsed JSON document; the fidelity
of the Python `json` encoder/decoder pair on such documents is taken as
the boundary of the embedding.  `ReadOutcome` enumerates what opening and
reading the checkpoint file can yield:

  * `absent`       - `CHECKPOINT_MONTHS.exists()` is false;
  * `osError`      - opening or reading raises `OSError` (caught);
  * `undecodable`  - the bytes are not valid UTF-8, so reading the text
                     stream raises `UnicodeDecodeError`, which is neither
                     `json.JSONDecodeError` nor `OSError` and therefore
                     escapes the `except` clause;
  * `notJson`      - the text is not valid JSON, `json.load` raises
                     `json.JSONDecodeError` (caught);
  * `json v`       - the text parses to the document `v`.
-/

inductive JsonVal where
  | null : JsonVal
  | bool : Bool → JsonVal
  | num : ℚ → JsonVal
  | str : String → JsonVal
  | arr : List JsonVal → JsonVal
  | obj : List (String × JsonVal) → JsonVal

inductive ReadOutcome where
  | absent : ReadOutcome
  | osError : ReadOutcome
  | undecodable : ReadOutcome
  | notJson : ReadOutcome
  | json : JsonVal → ReadOutcome

/-- The value returned for an absent or unparseable file:
`{"done_months": []}`. -/
def emptyCheckpoint : JsonVal := .obj [("done_months", .arr [])]

/-- Embedding of `load_checkpoint`.  `Except.error` models an uncaught
Python exception escaping the function. -/
def load_checkpoint : ReadOutcome → Except String JsonVal
  | .absent => .ok emptyCheckpoint
  | .osError => .ok emptyCheckpoint
  | .undecodable => .error "UnicodeDecodeError"
  | .notJson => .ok emptyCheckpoint
  | .json v => .ok v

/-- Abstract state of the checkpoint path and its `.tmp` sibling. -/
structure CheckpointFs where
  cp : ReadOutcome
  tmp : Option JsonVal

/-- First half of `save_checkpoint`: `json.dump(d, f)` into the `.tmp`
path. -/
def writeTmp (d : JsonVal) (fs : CheckpointFs) : CheckpointFs :=
  { fs with tmp := some d }

/-- Second half of `save_checkpoint`: `tmp.replace(CHECKPOINT_MONTHS)`,
an atomic rename that installs the temporary file's content and removes
the temporary path. -/
def renameTmpToCp (fs : CheckpointFs) : CheckpointFs :=
  match fs.tmp with
  | some d => { cp := .json d, tmp := none }
  | none => fs

/-- Embedding of `save_checkpoint`: write the temporary file, then rename
it over the checkpoint path. -/
def save_checkpoint (d : JsonVal) (fs : CheckpointFs) : CheckpointFs :=
  renameTmpToCp (writeTmp d fs)

/-- Claim C5, counterexample.  A backing file holding valid JSON that is
not Checkpoint-shaped (here the array `[1, 2, 3]`) is returned as-is by
`load_checkpoint`, not replaced by the empty checkpoint
`{"done_months": []}`. -/
theorem load_checkpoint_counterexample :
    load_checkpoint (.json (.arr [.num 1, .num 2, .num 3]))
      = Except.ok (.arr [.num 1, .num 2, .num 3])
    ∧ JsonVal.arr [.num 1, .num 2, .num 3] ≠ emptyCheckpoint := by
  exact ⟨rfl, fun h => JsonVal.noConfusion h⟩

/-- Claim C5, amended.  `load_checkpoint` returns the empty checkpoint
when the backing file is absent, unreadable (`OSError`), or not valid
JSON; any successfully parsed JSON document is returned unchanged, even
when it is not Checkpoint-shaped; a readable file whose bytes are not
valid UTF-8 raises an uncaught `UnicodeDecodeError`. -/
theorem load_checkpoint_amended :
    load_checkpoint .absent = .ok emptyCheckpoint
    ∧ load_checkpoint .osError = .ok emptyCheckpoint
    ∧ load_checkpoint .notJson = .ok emptyCheckpoint
    ∧ (∀ v : JsonVal, load_checkpoint (.json v) = .ok v)
    ∧ load_checkpoint .undecodable = .error "UnicodeDecodeError" := by
  exact ⟨rfl, rfl, rfl, fun _ => rfl, rfl⟩

/-- Claim C6.  For every checkpoint document `X` and every prior state of
the files, `save_checkpoint X` followed by `load_checkpoint` yields `X`,
and after the save no temporary file remains (the content having been
installed by the rename step). -/
theorem save_then_load_roundtrip (d : JsonVal) (fs : CheckpointFs) :
    load_checkpoint (save_checkpoint d fs).cp = .ok d
    ∧ (save_checkpoint d fs).tmp = none := by
  exact ⟨rfl, rfl⟩

/-! ## Discover paging (claim C2)

`discoverPlan` embeds the page-count logic of `discover_all` in
`src/movie.py` as a function of the environment: `total_pages` as
reported by the first page's response envelope, and the caller's
`max_pages`.  It returns the number of `/discover/movie` requests
actually issued (page 1 is always fetched first, pages `2..total_pages`
afterwards) together with the emitted warning's missed-record estimate
(`None` when no warning is logged).  Python truthiness makes
`max_pages=0` behave like `None`.

`discoverPlanLegacy` embeds the same logic from the top-level duplicate
script, which has no `TMDB_MAX_PAGES` cap and no warning. -/

def TMDB_MAX_PAGES : Int := 500

def discoverPlan (total_pages : Int) (max_pages : Option Int) : Nat × Option Int :=
  let warn : Option Int :=
    if total_pages > TMDB_MAX_PAGES then some ((total_pages - TMDB_MAX_PAGES) * 20) else none
  let tp1 : Int := if total_pages > TMDB_MAX_PAGES then TMDB_MAX_PAGES else total_pages
  let tp2 : Int :=
    match max_pages with
    | some m => if m ≠ 0 then min tp1 m else tp1
    | none => tp1
  (1 + (if tp2 ≥ 2 then (tp2 - 1).toNat else 0), warn)

def discoverPlanLegacy (total_pages : Int) (max_pages : Option Int) : Nat × Option Int :=
  let tp2 : Int :=
    match max_pages with
    | some m => if m ≠ 0 then min total_pages m else total_pages
    | none => total_pages
  (1 + (if tp2 ≥ 2 then (tp2 - 1).toNat else 0), none)

/-- The page count asserted by the claim:
`min(total_pages, 500, max_pages when supplied)`. -/
def claimedPages (total_pages : Int) (max_pages : Option Int) : Int :=
  match max_pages with
  | some m => min total_pages (min 500 m)
  | none => min total_pages 500

/-- Claim C2, counterexample.  Three concrete discover calls violate the
claimed formula: a first page reporting `total_pages = 0` still costs one
request (the claimed minimum is 0); `max_pages = 0` is falsy in Python
and imposes no cap at all; and the top-level duplicate script fetches all
600 reported pages without the 500 cap and without emitting any
warning. -/
theorem discover_pages_counterexample :
    ((discoverPlan 0 none).1 : Int) ≠ claimedPages 0 none
    ∧ ((discoverPlan 10 (some 0)).1 : Int) ≠ claimedPages 10 (some 0)
    ∧ ((discoverPlanLegacy 600 none).1 : Int) ≠ claimedPages 600 none
    ∧ (discoverPlanLegacy 600 none).2 = none := by
  refine ⟨?_, ?_, ?_, rfl⟩ <;> decide

/-- Claim C2, amended.  For the runner under `src/`, provided `max_pages`
is not the falsy value 0, the number of pages fetched is
`max(1, min(total_pages, 500, max_pages when supplied))` - page 1 is
always fetched before `total_pages` is known - and a warning reporting
`20 * (total_pages - 500)` missed records is emitted exactly when the
reported `total_pages` exceeds 500, without aborting the fetch.  (The
top-level duplicate script applies only the `max_pages` cap and never
warns.) -/
theorem discover_pages_amended (total_pages : Int) (max_pages : Option Int)
    (h : max_pages ≠ some 0) :
    ((discoverPlan total_pages max_pages).1 : Int)
      = max (claimedPages total_pages max_pages) 1
    ∧ ((discoverPlan total_pages max_pages).2 ≠ none ↔ total_pages > 500)
    ∧ (total_pages > 500 →
        (discoverPlan total_pages max_pages).2 = some ((total_pages - 500) * 20)) := by
  have pagesFetched_eq : ∀ c : Int,
      ((1 + (if c ≥ 2 then (c - 1).toNat else 0) : Nat) : Int) = max c 1 := by
    intro c
    rcases le_or_lt 2 c with hc | hc
    · rw [if_pos (by omega), max_eq_left (by omega)]
      push_cast
      rw [Int.toNat_of_nonneg (by omega)]
      omega
    · rw [if_neg (by omega), max_eq_right (by omega)]
      simp
  have hTp1 : (if total_pages > TMDB_MAX_PAGES then TMDB_MAX_PAGES else total_pages)
      = min total_pages 500 := by
    unfold TMDB_MAX_PAGES
    rcases le_or_lt total_pages 500 with hle | hlt
    · rw [if_neg (by omega), min_eq_left hle]
    · rw [if_pos hlt, min_eq_right (by omega)]
  refine ⟨?_, ?_, ?_⟩
  · cases max_pages with
    | none =>
      simp only [discoverPlan, claimedPages, hTp1]
      exact pagesFetched_eq _
    | some m =>
      have hm : m ≠ 0 := fun hm0 => h (by rw [hm0])
      simp only [discoverPlan, claimedPages, hTp1, if_pos hm]
      rw [min_assoc]
      exact pagesFetched_eq _
  · simp only [discoverPlan, TMDB_MAX_PAGES]
    split_ifs with hw
    · simp [hw]
    · simp [hw]
  · intro hlt
    simp only [discoverPlan, TMDB_MAX_PAGES, if_pos hlt]

/-- Witness for `discover_pages_amended`: a first page reporting 800
pages with no caller cap fetches 500 pages and warns about 6000 missed
records. -/
theorem discover_pages_amended_witness :
    (none : Option Int) ≠ some 0
    ∧ ((discoverPlan 800 none).1 : Int) = max (claimedPages 800 none) 1
    ∧ ((discoverPlan 800 none).2 ≠ none ↔ (800 : Int) > 500)
    ∧ ((800 : Int) > 500 → (discoverPlan 800 none).2 = some ((800 - 500) * 20)) := by
  have h : (none : Option Int) ≠ some 0 := by decide
  exact ⟨h, discover_pages_amended 800 none h⟩

/-! ## Normalizer (claims C7, C8, C10)

`normalize_to_df` embeds the row construction of the Python function of
the same name.  A raw provider record is a JSON object read only through
`m.get(...)`, so it is modelled as a bundle of optional fields; a cell of
the output table is `null` or a scalar.  The Python builds one dict per
record (with the eleven keys in schema order) and then applies
`pd.DataFrame(rows).reindex(columns=COLS)`; since reindexing selects
columns by name, this is modelled as a by-name lookup of the eleven
schema columns in each record's association list (`reindexRow`), with
`null` for a name the row lacks, and `cols` of the result set to `COLS`
exactly as `reindex(columns=COLS)` guarantees, also for zero rows. -/

inductive Cell where
  | null : Cell
  | str : String → Cell
  | int : Int → Cell
  | rat : ℚ → Cell
deriving DecidableEq

structure RawMovie where
  id : Option Int := none
  title : Option String := none
  original_title : Option String := none
  release_date : Option String := none
  genre_ids : Option (List Int) := none
  vote_average : Option ℚ := none
  vote_count : Option Int := none
  popularity : Option ℚ := none
  original_language : Option String := none
  overview : Option String := none
  poster_path : Option String := none

def optCellInt : Option Int → Cell
  | none => .null
  | some n => .int n

def optCellStr : Option String → Cell
  | none => .null
  | some s => .str s

def optCellRat : Option ℚ → Cell
  | none => .null
  | some q => .rat q

def COLS : List String :=
  ["tmdb_id", "title", "original_title", "release_date", "genres",
   "vote_average", "vote_count", "popularity", "original_language",
   "overview", "poster_url"]

/-- The `genres` cell: `"|".join(genres_map.get(gid, str(gid)) for gid in
m.get("genre_ids", []))`. -/
def genresCell (genres_map : Int → Option String) (m : RawMovie) : Cell :=
  .str (String.intercalate "|"
    ((m.genre_ids.getD []).map (fun gid => (genres_map gid).getD (toString gid))))

/-- The `poster_url` cell: the concatenated URL if `poster_path` is
truthy (present and non-empty), else `None`. -/
def posterUrlCell (image_base poster_size : String) (m : RawMovie) : Cell :=
  match m.poster_path with
  | some p => if p = "" then .null else .str (image_base ++ poster_size ++ p)
  | none => .null

/-- The association list built for one record, with the keys in the
order the Python dict literal writes them. -/
def buildRow (image_base poster_size : String) (genres_map : Int → Option String)
    (m : RawMovie) : List (String × Cell) :=
  [("tmdb_id", optCellInt m.id),
   ("title", optCellStr m.title),
   ("original_title", optCellStr m.original_title),
   ("release_date", optCellStr m.release_date),
   ("genres", genresCell genres_map m),
   ("vote_average", optCellRat m.vote_average),
   ("vote_count", optCellInt m.vote_count),
   ("popularity", optCellRat m.popularity),
   ("original_language", optCellStr m.original_language),
   ("overview", optCellStr m.overview),
   ("poster_url", posterUrlCell image_base poster_size m)]

def lookupCell (c : String) : List (String × Cell) → Option Cell
  | [] => none
  | (k, v) :: rest => if c = k then some v else lookupCell c rest

/-- Name-based column selection of `reindex(columns=cols)` applied to
one row: a missing column becomes `null`. -/
def reindexRow (cols : List String) (row : List (String × Cell)) : List Cell :=
  cols.map (fun c => (lookupCell c row).getD .null)

structure Df where
  cols : List String
  rows : List (List Cell)

def normalize_to_df (raw_movies : List RawMovie) (image_base poster_size : String)
    (genres_map : Int → Option String) : Df :=
  { cols := COLS,
    rows := raw_movies.map
      (fun m => reindexRow COLS (buildRow image_base poster_size genres_map m)) }

/-- Cell of a row at a column position (the output rows always have all
eleven cells). -/
def cellAt (row : List Cell) (i : Nat) : Cell :=
  row.getD i Cell.null

/-- Reindexing the built association list by the schema recovers the
eleven cells in schema order. -/
theorem reindexRow_buildRow (image_base poster_size : String)
    (genres_map : Int → Option String) (m : RawMovie) :
    reindexRow COLS (buildRow image_base poster_size genres_map m)
      = [optCellInt m.id, optCellStr m.title, optCellStr m.original_title,
         optCellStr m.release_date, genresCell genres_map m,
         optCellRat m.vote_average, optCellInt m.vote_count,
         optCellRat m.popularity, optCellStr m.original_language,
         optCellStr m.overview, posterUrlCell image_base poster_size m] := rfl

def emptyRawMovie : RawMovie := {}

/-- Claim C7.  For every raw record list the output columns are exactly
the eleven schema names in order, every record yields a row (the mapping
is total), and a missing optional raw field yields a `null` cell in the
corresponding column (the `genres` cell of a record with no `genre_ids`
is the empty string, per the genre-resolution rule of claim C8). -/
theorem normalize_to_df_schema_and_nulls (raw_movies : List RawMovie)
    (image_base poster_size : String) (genres_map : Int → Option String) :
    (normalize_to_df raw_movies image_base poster_size genres_map).cols = COLS
    ∧ (normalize_to_df raw_movies image_base poster_size genres_map).rows
        = raw_movies.map (fun m => reindexRow COLS (buildRow image_base poster_size genres_map m))
    ∧ ∀ m : RawMovie,
        (m.id = none →
          cellAt (reindexRow COLS (buildRow image_base poster_size genres_map m)) 0 = .null)
        ∧ (m.title = none →
          cellAt (reindexRow COLS (buildRow image_base poster_size genres_map m)) 1 = .null)
        ∧ (m.original_title = none →
          cellAt (reindexRow COLS (buildRow image_base poster_size genres_map m)) 2 = .null)
        ∧ (m.release_date = none →
          cellAt (reindexRow COLS (buildRow image_base poster_size genres_map m)) 3 = .null)
        ∧ (m.vote_average = none →
          cellAt (reindexRow COLS (buildRow image_base poster_size genres_map m)) 5 = .null)
        ∧ (m.vote_count = none →
          cellAt (reindexRow COLS (buildRow image_base poster_size genres_map m)) 6 = .null)
        ∧ (m.popularity = none →
          cellAt (reindexRow COLS (buildRow image_base poster_size genres_map m)) 7 = .null)
        ∧ (m.original_language = none →
          cellAt (reindexRow COLS (buildRow image_base poster_size genres_map m)) 8 = .null)
        ∧ (m.overview = none →
          cellAt (reindexRow COLS (buildRow image_base poster_size genres_map m)) 9 = .null)
        ∧ (m.poster_path = none →
          cellAt (reindexRow COLS (buildRow image_base poster_size genres_map m)) 10 = .null) := by
  refine ⟨rfl, rfl, fun m => ?_⟩
  rw [reindexRow_buildRow]
  refine ⟨?_, ?_, ?_, ?_, ?_, ?_, ?_, ?_, ?_, ?_⟩ <;>
    (intro h; simp [cellAt, optCellInt, optCellStr, optCellRat, posterUrlCell, h])

/-- Witness for `normalize_to_df_schema_and_nulls` at a record with all
fields absent. -/
theorem normalize_to_df_schema_and_nulls_witness :
    emptyRawMovie.id = none
    ∧ emptyRawMovie.poster_path = none
    ∧ cellAt (reindexRow COLS (buildRow "https://cdn/" "w500" (fun _ => none) emptyRawMovie)) 0
        = Cell.null
    ∧ cellAt (reindexRow COLS (buildRow "https://cdn/" "w500" (fun _ => none) emptyRawMovie)) 10
        = Cell.null := by
  have h := (normalize_to_df_schema_and_nulls [] "https://cdn/" "w500" (fun _ => none)).2.2
    emptyRawMovie
  exact ⟨rfl, rfl, h.1 rfl, h.2.2.2.2.2.2.2.2.2 rfl⟩

/-- Claim C8.  The `genres` cell is the pipe-join, in input order, of the
per-code renderings: a code in the map renders as its mapped name, a code
absent from the map renders as its decimal string, and an empty (or
absent) code list renders as the empty string. -/
theorem normalize_genres_resolution (image_base poster_size : String)
    (genres_map : Int → Option String) (m : RawMovie) :
    (normalize_to_df [m] image_base poster_size genres_map).rows
      = [reindexRow COLS (buildRow image_base poster_size genres_map m)]
    ∧ cellAt (reindexRow COLS (buildRow image_base poster_size genres_map m)) 4
        = .str (String.intercalate "|"
            ((m.genre_ids.getD []).map (fun gid => (genres_map gid).getD (toString gid))))
    ∧ (m.genre_ids = some [] →
        cellAt (reindexRow COLS (buildRow image_base poster_size genres_map m)) 4 = .str "")
    ∧ (∀ gid name, genres_map gid = some name →
        cellAt (reindexRow COLS (buildRow image_base poster_size genres_map
          { m with genre_ids := some [gid] })) 4 = .str name)
    ∧ (∀ gid, genres_map gid = none →
        cellAt (reindexRow COLS (buildRow image_base poster_size genres_map
          { m with genre_ids := some [gid] })) 4 = .str (toString gid)) := by
  refine ⟨rfl, rfl, ?_, ?_, ?_⟩
  · intro h
    rw [reindexRow_buildRow]
    show genresCell genres_map m = Cell.str ""
    unfold genresCell
    rw [h]
    rfl
  · intro gid name hname
    rw [reindexRow_buildRow]
    show genresCell genres_map _ = Cell.str name
    unfold genresCell
    simp [hname, String.intercalate, String.intercalate.go]
  · intro gid hnone
    rw [reindexRow_buildRow]
    show genresCell genres_map _ = Cell.str (toString gid)
    unfold genresCell
    simp [hnone, String.intercalate, String.intercalate.go]

/-- Witness for `normalize_genres_resolution`: with the map
`{28: "Action"}`, a record listing genre codes `[28, 9999]` renders
`"Action|9999"`; an empty code list renders `""`. -/
theorem normalize_genres_resolution_witness :
    cellAt (reindexRow COLS (buildRow "https://cdn/" "w500"
        (fun g => if g = 28 then some "Action" else none)
        { emptyRawMovie with genre_ids := some [28, 9999] })) 4
      = .str "Action|9999"
    ∧ ({ emptyRawMovie with genre_ids := some [] } : RawMovie).genre_ids = some []
    ∧ cellAt (reindexRow COLS (buildRow "https://cdn/" "w500"
        (fun g => if g = 28 then some "Action" else none)
        { emptyRawMovie with genre_ids := some [] })) 4 = .str "" := by
  refine ⟨?_, rfl, ?_⟩
  · have h := (normalize_genres_resolution "https://cdn/" "w500"
      (fun g => if g = 28 then some "Action" else none)
      { emptyRawMovie with genre_ids := some [28, 9999] }).2.1
    rw [h]
    rfl
  · exact (normalize_genres_resolution "https://cdn/" "w500"
      (fun g => if g = 28 then some "Action" else none)
      { emptyRawMovie with genre_ids := some [] }).2.2.1 rfl

/-- Claim C10.  The poster URL is produced only for a truthy
`poster_path`: a present-but-empty string yields `null` exactly like an
absent one, and a non-empty path yields the concatenation
`image_base ++ poster_size ++ path`. -/
theorem poster_url_truthiness (image_base poster_size : String)
    (genres_map : Int → Option String) (m : RawMovie) :
    (m.poster_path = some "" →
      cellAt (reindexRow COLS (buildRow image_base poster_size genres_map m)) 10 = .null)
    ∧ (∀ p, m.poster_path = some p → p ≠ "" →
      cellAt (reindexRow COLS (buildRow image_base poster_size genres_map m)) 10
        = .str (image_base ++ poster_size ++ p))
    ∧ (m.poster_path = none →
      cellAt (reindexRow COLS (buildRow image_base poster_size genres_map m)) 10 = .null) := by
  refine ⟨?_, ?_, ?_⟩
  · intro h
    rw [reindexRow_buildRow]
    simp [cellAt, posterUrlCell, h]
  · intro p hp hne
    rw [reindexRow_buildRow]
    simp [cellAt, posterUrlCell, hp, hne]
  · intro h
    rw [reindexRow_buildRow]
    simp [cellAt, posterUrlCell, h]

/-- Witness for `poster_url_truthiness`: a record whose `poster_path` is
the empty string gets a `null` poster URL. -/
theorem poster_url_truthiness_witness :
    ({ emptyRawMovie with poster_path := some "" } : RawMovie).poster_path = some ""
    ∧ cellAt (reindexRow COLS (buildRow "https://cdn/" "w500" (fun _ => none)
        { emptyRawMovie with poster_path := some "" })) 10 = Cell.null := by
  exact ⟨rfl, (poster_url_truthiness "https://cdn/" "w500" (fun _ => none)
    { emptyRawMovie with poster_path := some "" }).1 rfl⟩

/-! ## Backfill orchestrator (claim C4)

`runLoop` embeds the window loop of `run_monthly_backfill`.  The
environment decides, per window, whether its processing (discover,
normalize, write the partial artifact) succeeds; `ok w = false` models an
exception raised while processing `w`, which the code logs and re-raises.
The `done` set is loaded from the checkpoint before the loop and a
checkpoint with the current `done` is saved after every successful
window, so the checkpoint on disk when the loop stops is the `doneAfter`
field.  The merge step runs only when the loop completes, which the
`mergeRan` flag records.  Windows are keyed by the string
`f"{start}_{end}"`. -/

abbrev Window := String × String

def windowKey (w : Window) : String := w.1 ++ "_" ++ w.2

structure RunResult where
  doneAfter : List String
  processed : List Window
  skipped : List Window
  aborted : Option Window
  mergeRan : Bool
deriving DecidableEq

def runLoop (ok : Window → Bool) : List Window → List String → RunResult
  | [], done => ⟨done, [], [], none, true⟩
  | w :: rest, done =>
    if windowKey w ∈ done then
      { runLoop ok rest done with skipped := w :: (runLoop ok rest done).skipped }
    else if ok w then
      { runLoop ok rest (done ++ [windowKey w]) with
        processed := w :: (runLoop ok rest (done ++ [windowKey w])).processed }
    else
      ⟨done, [], [], some w, false⟩

def run_monthly_backfill (ok : Window → Bool) (windows : List Window)
    (done0 : List String) : RunResult :=
  runLoop ok windows done0

theorem runLoop_doneAfter (ok : Window → Bool) (ws : List Window) :
    ∀ done : List String,
      (runLoop ok ws done).doneAfter = done ++ (runLoop ok ws done).processed.map windowKey := by
  induction ws with
  | nil => intro done; simp [runLoop]
  | cons w rest ih =>
    intro done
    by_cases hmem : windowKey w ∈ done
    · have hrun : runLoop ok (w :: rest) done
          = { runLoop ok rest done with skipped := w :: (runLoop ok rest done).skipped } := by
        simp only [runLoop]
        rw [if_pos hmem]
      rw [hrun]
      exact ih done
    · cases hok : ok w with
      | true =>
        have hrun : runLoop ok (w :: rest) done
            = { runLoop ok rest (done ++ [windowKey w]) with
                processed := w :: (runLoop ok rest (done ++ [windowKey w])).processed } := by
          simp only [runLoop]
          rw [if_neg hmem, if_pos hok]
        rw [hrun]
        show (runLoop ok rest (done ++ [windowKey w])).doneAfter
          = done ++ (windowKey w :: _)
        rw [ih (done ++ [windowKey w])]
        simp
      | false =>
        have hrun : runLoop ok (w :: rest) done = ⟨done, [], [], some w, false⟩ := by
          simp only [runLoop]
          rw [if_neg hmem, if_neg (by simp [hok])]
        rw [hrun]
        simp

theorem runLoop_merge_iff (ok : Window → Bool) (ws : List Window) :
    ∀ done : List String,
      ((runLoop ok ws done).mergeRan = true ↔ (runLoop ok ws done).aborted = none) := by
  induction ws with
  | nil => intro done; simp [runLoop]
  | cons w rest ih =>
    intro done
    by_cases hmem : windowKey w ∈ done
    · have hrun : runLoop ok (w :: rest) done
          = { runLoop ok rest done with skipped := w :: (runLoop ok rest done).skipped } := by
        simp only [runLoop]
        rw [if_pos hmem]
      rw [hrun]
      exact ih done
    · cases hok : ok w with
      | true =>
        have hrun : runLoop ok (w :: rest) done
            = { runLoop ok rest (done ++ [windowKey w]) with
                processed := w :: (runLoop ok rest (done ++ [windowKey w])).processed } := by
          simp only [runLoop]
          rw [if_neg hmem, if_pos hok]
        rw [hrun]
        exact ih (done ++ [windowKey w])
      | false =>
        have hrun : runLoop ok (w :: rest) done = ⟨done, [], [], some w, false⟩ := by
          simp only [runLoop]
          rw [if_neg hmem, if_neg (by simp [hok])]
        rw [hrun]
        simp

theorem runLoop_spec (ok : Window → Bool) (ws : List Window) :
    ∀ done : List String, (ws.map windowKey).Nodup →
      ((runLoop ok ws done).aborted = none →
        (runLoop ok ws done).skipped = ws.filter (fun u => decide (windowKey u ∈ done))
        ∧ (runLoop ok ws done).processed = ws.filter (fun u => decide (windowKey u ∉ done)))
      ∧ (∀ w, (runLoop ok ws done).aborted = some w →
        ok w = false ∧ windowKey w ∉ done
        ∧ ∃ pre post, ws = pre ++ w :: post
            ∧ (runLoop ok ws done).processed
                = pre.filter (fun u => decide (windowKey u ∉ done))
            ∧ (runLoop ok ws done).skipped
                = pre.filter (fun u => decide (windowKey u ∈ done))
            ∧ (∀ u ∈ pre, windowKey u ∈ done ∨ ok u = true)) := by
  induction ws with
  | nil =>
    intro done _
    refine ⟨fun _ => ⟨rfl, rfl⟩, fun w hw => ?_⟩
    simp [runLoop] at hw
  | cons w rest ih =>
    intro done hnodup
    rw [List.map_cons, List.nodup_cons] at hnodup
    obtain ⟨hknotin, hnodup'⟩ := hnodup
    by_cases hmem : windowKey w ∈ done
    · have hrun : runLoop ok (w :: rest) done
          = { runLoop ok rest done with skipped := w :: (runLoop ok rest done).skipped } := by
        simp only [runLoop]
        rw [if_pos hmem]
      rw [hrun]
      constructor
      · intro hab
        obtain ⟨hsk, hpr⟩ := (ih done hnodup').1 hab
        constructor
        · show w :: (runLoop ok rest done).skipped = _
          rw [List.filter_cons, if_pos (by simpa using hmem), hsk]
        · show (runLoop ok rest done).processed = _
          rw [List.filter_cons, if_neg (by simpa using hmem), hpr]
      · intro w' hab
        obtain ⟨hokf, hnotin, pre, post, hsplit, hpr, hsk, hpre⟩ := (ih done hnodup').2 w' hab
        refine ⟨hokf, hnotin, w :: pre, post, by rw [hsplit]; rfl, ?_, ?_, ?_⟩
        · show (runLoop ok rest done).processed = _
          rw [List.filter_cons, if_neg (by simpa using hmem), hpr]
        · show w :: (runLoop ok rest done).skipped = _
          rw [List.filter_cons, if_pos (by simpa using hmem), hsk]
        · intro u hu
          rcases List.mem_cons.mp hu with rfl | hu'
          · exact Or.inl hmem
          · exact hpre u hu'
    · cases hok : ok w with
      | true =>
        have hcongr_in : ∀ l : List Window, (∀ u ∈ l, u ∈ rest) →
            l.filter (fun u => decide (windowKey u ∈ done ++ [windowKey w]))
              = l.filter (fun u => decide (windowKey u ∈ done)) := by
          intro l hl
          apply List.filter_congr
          intro u hu
          have hne : windowKey u ≠ windowKey w := by
            intro he
            exact hknotin (he ▸ List.mem_map_of_mem windowKey (hl u hu))
          exact decide_eq_decide.mpr (by simp [List.mem_append, hne])
        have hcongr_out : ∀ l : List Window, (∀ u ∈ l, u ∈ rest) →
            l.filter (fun u => decide (windowKey u ∉ done ++ [windowKey w]))
              = l.filter (fun u => decide (windowKey u ∉ done)) := by
          intro l hl
          apply List.filter_congr
          intro u hu
          have hne : windowKey u ≠ windowKey w := by
            intro he
            exact hknotin (he ▸ List.mem_map_of_mem windowKey (hl u hu))
          exact decide_eq_decide.mpr (by simp [List.mem_append, hne])
        have hrun : runLoop ok (w :: rest) done
            = { runLoop ok rest (done ++ [windowKey w]) with
                processed := w :: (runLoop ok rest (done ++ [windowKey w])).processed } := by
          simp only [runLoop]
          rw [if_neg hmem, if_pos hok]
        rw [hrun]
        constructor
        · intro hab
          obtain ⟨hsk, hpr⟩ := (ih (done ++ [windowKey w]) hnodup').1 hab
          constructor
          · show (runLoop ok rest (done ++ [windowKey w])).skipped = _
            rw [List.filter_cons, if_neg (by simpa using hmem), hsk,
              hcongr_in rest (fun u hu => hu)]
          · show w :: (runLoop ok rest (done ++ [windowKey w])).processed = _
            rw [List.filter_cons, if_pos (by simpa using hmem), hpr,
              hcongr_out rest (fun u hu => hu)]
        · intro w' hab
          obtain ⟨hokf, hnotin, pre, post, hsplit, hpr, hsk, hpre⟩ :=
            (ih (done ++ [windowKey w]) hnodup').2 w' hab
          have hpresub : ∀ u ∈ pre, u ∈ rest := by
            intro u hu
            rw [hsplit]
            exact List.mem_append_left _ hu
          refine ⟨hokf, fun hc => hnotin (List.mem_append_left _ hc),
            w :: pre, post, by rw [hsplit]; rfl, ?_, ?_, ?_⟩
          · show w :: (runLoop ok rest (done ++ [windowKey w])).processed = _
            rw [List.filter_cons, if_pos (by simpa using hmem), hpr, hcongr_out pre hpresub]
          · show (runLoop ok rest (done ++ [windowKey w])).skipped = _
            rw [List.filter_cons, if_neg (by simpa using hmem), hsk, hcongr_in pre hpresub]
          · intro u hu
            rcases List.mem_cons.mp hu with rfl | hu'
            · exact Or.inr hok
            · rcases hpre u hu' with hin | hoku
              · rcases List.mem_append.mp hin with hin' | hin'
                · exact Or.inl hin'
                · exfalso
                  rw [List.mem_singleton] at hin'
                  exact hknotin (hin' ▸ List.mem_map_of_mem windowKey (hpresub u hu'))
              · exact Or.inr hoku
      | false =>
        have hrun : runLoop ok (w :: rest) done = ⟨done, [], [], some w, false⟩ := by
          simp only [runLoop]
          rw [if_neg hmem, if_neg (by simp [hok])]
        rw [hrun]
        constructor
        · intro hab
          exact absurd hab (by simp)
        · intro w' hab
          have hw' : w = w' := Option.some.inj hab
          subst hw'
          exact ⟨hok, hmem, [], rest, rfl, rfl, rfl, by intro u hu; cases hu⟩

theorem nodup_split_not_in_pre {pre post : List Window} {w : Window}
    (h : (((pre ++ w :: post).map windowKey)).Nodup) :
    ∀ u ∈ post, u ∉ pre := by
  intro u hupost hupre
  rw [List.map_append, List.map_cons] at h
  obtain ⟨-, -, hdisj⟩ := List.nodup_append.mp h
  exact hdisj (List.mem_map_of_mem windowKey hupre)
    (List.mem_cons_of_mem _ (List.mem_map_of_mem windowKey hupost))

/-- Claim C4.  With distinct window keys (true of the partitioner's
monthly windows): the checkpoint after the run is the loaded one plus the
keys of exactly the windows processed in this run; the merge step runs
iff no window aborted; when a window `w` raises, processing stops at `w`
(the windows after it are neither processed nor skipped), the merge does
not run, `w` is not checkpointed, every window completed before the
failure is in the saved checkpoint, and the windows before `w` were each
either skipped (key in the loaded checkpoint) or processed; when no
window raises, exactly the windows whose key is in the loaded
checkpoint's `done_months` are skipped and the remaining windows are
processed. -/
theorem run_monthly_backfill_contract (ok : Window → Bool) (windows : List Window)
    (done0 : List String) (hkeys : (windows.map windowKey).Nodup) :
    (run_monthly_backfill ok windows done0).doneAfter
      = done0 ++ (run_monthly_backfill ok windows done0).processed.map windowKey
    ∧ ((run_monthly_backfill ok windows done0).mergeRan = true
        ↔ (run_monthly_backfill ok windows done0).aborted = none)
    ∧ (∀ w, (run_monthly_backfill ok windows done0).aborted = some w →
        ok w = false
        ∧ windowKey w ∉ done0
        ∧ (run_monthly_backfill ok windows done0).mergeRan = false
        ∧ (∀ u ∈ (run_monthly_backfill ok windows done0).processed,
            windowKey u ∈ (run_monthly_backfill ok windows done0).doneAfter)
        ∧ ∃ pre post, windows = pre ++ w :: post
            ∧ (run_monthly_backfill ok windows done0).processed
                = pre.filter (fun u => decide (windowKey u ∉ done0))
            ∧ (run_monthly_backfill ok windows done0).skipped
                = pre.filter (fun u => decide (windowKey u ∈ done0))
            ∧ (∀ u ∈ post, u ∉ (run_monthly_backfill ok windows done0).processed
                ∧ u ∉ (run_monthly_backfill ok windows done0).skipped))
    ∧ ((run_monthly_backfill ok windows done0).aborted = none →
        (run_monthly_backfill ok windows done0).skipped
          = windows.filter (fun u => decide (windowKey u ∈ done0))
        ∧ (run_monthly_backfill ok windows done0).processed
          = windows.filter (fun u => decide (windowKey u ∉ done0))) := by
  simp only [run_monthly_backfill]
  have hdone := runLoop_doneAfter ok windows done0
  have hmerge := runLoop_merge_iff ok windows done0
  have hspec := runLoop_spec ok windows done0 hkeys
  refine ⟨hdone, hmerge, ?_, hspec.1⟩
  intro w hab
  obtain ⟨hokf, hnotin, pre, post, hsplit, hpr, hsk, hpre⟩ := hspec.2 w hab
  have hmergef : (runLoop ok windows done0).mergeRan = false := by
    cases hb : (runLoop ok windows done0).mergeRan
    · rfl
    · exact Option.noConfusion ((hmerge.mp hb).symm.trans hab)
  have hnotpre := nodup_split_not_in_pre (hsplit ▸ hkeys)
  refine ⟨hokf, hnotin, hmergef, ?_, pre, post, hsplit, hpr, hsk, ?_⟩
  · intro u hu
    rw [hdone]
    exact List.mem_append_right _ (List.mem_map_of_mem windowKey hu)
  · intro u hu
    constructor
    · intro hc
      exact hnotpre u hu (List.mem_of_mem_filter (hpr ▸ hc))
    · intro hc
      exact hnotpre u hu (List.mem_of_mem_filter (hsk ▸ hc))

/-- Witness for `run_monthly_backfill_contract`: four monthly windows,
the first already checkpointed, the third raising. -/
theorem run_monthly_backfill_contract_witness :
    (([("2021-01-01", "2021-01-31"), ("2021-02-01", "2021-02-28"),
       ("2021-03-01", "2021-03-31"), ("2021-04-01", "2021-04-30")] : List Window).map
        windowKey).Nodup
    ∧ (run_monthly_backfill (fun w => decide (w ≠ ("2021-03-01", "2021-03-31")))
        [("2021-01-01", "2021-01-31"), ("2021-02-01", "2021-02-28"),
         ("2021-03-01", "2021-03-31"), ("2021-04-01", "2021-04-30")]
        ["2021-01-01_2021-01-31"]).doneAfter
      = ["2021-01-01_2021-01-31"]
        ++ (run_monthly_backfill (fun w => decide (w ≠ ("2021-03-01", "2021-03-31")))
            [("2021-01-01", "2021-01-31"), ("2021-02-01", "2021-02-28"),
             ("2021-03-01", "2021-03-31"), ("2021-04-01", "2021-04-30")]
            ["2021-01-01_2021-01-31"]).processed.map windowKey := by
  refine ⟨by decide, ?_⟩
  exact (run_monthly_backfill_contract (fun w => decide (w ≠ ("2021-03-01", "2021-03-31")))
    [("2021-01-01", "2021-01-31"), ("2021-02-01", "2021-02-28"),
     ("2021-03-01", "2021-03-31"), ("2021-04-01", "2021-04-30")]
    ["2021-01-01_2021-01-31"] (by decide)).1

/-! ## Retrying fetcher (claim C3)

`safe_get` embeds the retry loop.  The network is an oracle assigning to
each attempt index an outcome: a transport exception
(`requests.RequestException`) or a response with a status code, an
optional `Retry-After` header value, a body text and a parsed JSON
payload (the payload type is abstract).  The float `backoff_base` is
modelled as a rational.

The conversion `int(retry_after)` is the standard library's `int`
builtin, an external collaborator with rich semantics (surrounding
whitespace, signs, underscore-grouped and Unicode digits); it is
therefore a parameter `pyIntFn : String → Option Int` of the model,
`none` standing for "`int(...)` raised" (caught by the `except` clause).
`pyInt?` below is a concrete instance of the oracle - sign plus ASCII
digits - used to evaluate the model at the specific headers appearing in
the concrete theorems, where it agrees with Python.

Each retry passes its computed wait to `time.sleep`, which raises an
uncaught `ValueError` on a negative value; `safe_get` then aborts with
neither an HTTP error nor the max-retries error.  The result type has
the outcome `sleepValueError` for this path, and the result is paired
with the list of waits passed to `time.sleep`, in order. -/

def pyStrip (s : String) : List Char :=
  ((s.toList.dropWhile Char.isWhitespace).reverse.dropWhile Char.isWhitespace).reverse

def digitsToNat (cs : List Char) : Nat :=
  cs.foldl (fun acc c => acc * 10 + (c.toNat - 48)) 0

def pyInt? (s : String) : Option Int :=
  match pyStrip s with
  | '+' :: rest =>
    if rest ≠ [] ∧ rest.all Char.isDigit then some (digitsToNat rest : Int) else none
  | '-' :: rest =>
    if rest ≠ [] ∧ rest.all Char.isDigit then some (-(digitsToNat rest : Int)) else none
  | rest =>
    if rest ≠ [] ∧ rest.all Char.isDigit then some (digitsToNat rest : Int) else none

inductive Attempt (α : Type) where
  | exn : Attempt α
  | resp : Nat → Option String → String → α → Attempt α

inductive FetchResult (α : Type) where
  | ok : α → FetchResult α
  | httpError : Nat → String → FetchResult α
  | maxRetriesExceeded : FetchResult α
  | sleepValueError : FetchResult α
deriving DecidableEq

def isSleepValueError {α : Type} : FetchResult α → Bool
  | .sleepValueError => true
  | _ => false

/-- The statuses the loop retries: transport exceptions, HTTP 429, and
HTTP 5xx. -/
def retryable {α : Type} : Attempt α → Prop
  | .exn => True
  | .resp s _ _ _ => s = 429 ∨ (500 ≤ s ∧ s < 600)

instance {α : Type} (a : Attempt α) : Decidable (retryable a) := by
  cases a with
  | exn => exact isTrue trivial
  | resp s ra b p => exact inferInstanceAs (Decidable (s = 429 ∨ (500 ≤ s ∧ s < 600)))

def backoff (base : ℚ) (attempt : Nat) : ℚ := base * 2 ^ attempt

/-- The wait on a 429: `int(ra) if ra else backoff`, with a fallback to
the backoff when `int(...)` raises. -/
def wait429 (pyIntFn : String → Option Int) (base : ℚ) (attempt : Nat) :
    Option String → ℚ
  | some h =>
    if h = "" then backoff base attempt
    else
      match pyIntFn h with
      | some n => (n : ℚ)
      | none => backoff base attempt
  | none => backoff base attempt

def safeGetAux {α : Type} (pyIntFn : String → Option Int) (trace : Nat → Attempt α)
    (base : ℚ) : Nat → Nat → FetchResult α × List ℚ
  | _, 0 => (.maxRetriesExceeded, [])
  | attempt, fuel + 1 =>
    match trace attempt with
    | .exn =>
      if backoff base attempt < 0 then (.sleepValueError, [backoff base attempt])
      else
        ((safeGetAux pyIntFn trace base (attempt + 1) fuel).1,
          backoff base attempt :: (safeGetAux pyIntFn trace base (attempt + 1) fuel).2)
    | .resp status ra body payload =>
      if status = 200 then (.ok payload, [])
      else if status = 429 then
        (if wait429 pyIntFn base attempt ra < 0 then
          (.sleepValueError, [wait429 pyIntFn base attempt ra])
        else
          ((safeGetAux pyIntFn trace base (attempt + 1) fuel).1,
            wait429 pyIntFn base attempt ra
              :: (safeGetAux pyIntFn trace base (attempt + 1) fuel).2))
      else if 500 ≤ status ∧ status < 600 then
        (if backoff base attempt < 0 then (.sleepValueError, [backoff base attempt])
        else
          ((safeGetAux pyIntFn trace base (attempt + 1) fuel).1,
            backoff base attempt :: (safeGetAux pyIntFn trace base (attempt + 1) fuel).2))
      else (.httpError status body, [])

def safe_get {α : Type} (pyIntFn : String → Option Int) (trace : Nat → Attempt α)
    (base : ℚ) (max_retries : Nat) : FetchResult α × List ℚ :=
  safeGetAux pyIntFn trace base 0 max_retries

/-- The wait the claim prescribes for a retried attempt: `base * 2 ^
attempt`, except on a 429 whose `Retry-After` header parses as an
integer, in which case that value. -/
def specWait {α : Type} (pyIntFn : String → Option Int) (base : ℚ) (attempt : Nat) :
    Attempt α → ℚ
  | .exn => backoff base attempt
  | .resp s ra _ _ =>
    if s = 429 then
      match ra with
      | some h =>
        match pyIntFn h with
        | some n => (n : ℚ)
        | none => backoff base attempt
      | none => backoff base attempt
    else backoff base attempt

/-- An attempt the loop survives: its outcome is retryable and the wait
it computes is accepted by `time.sleep` (nonnegative). -/
def goodStep {α : Type} (pyIntFn : String → Option Int) (base : ℚ)
    (trace : Nat → Attempt α) (i : Nat) : Prop :=
  retryable (trace i) ∧ 0 ≤ specWait pyIntFn base i (trace i)

instance {α : Type} (pyIntFn : String → Option Int) (base : ℚ)
    (trace : Nat → Attempt α) (i : Nat) : Decidable (goodStep pyIntFn base trace i) :=
  inferInstanceAs (Decidable (retryable (trace i) ∧ 0 ≤ specWait pyIntFn base i (trace i)))

theorem goodStep_def {α : Type} (pyIntFn : String → Option Int) (base : ℚ)
    (trace : Nat → Attempt α) (i : Nat) :
    goodStep pyIntFn base trace i
      ↔ (retryable (trace i) ∧ 0 ≤ specWait pyIntFn base i (trace i)) := Iff.rfl

theorem specWait_not429 {α : Type} (pyIntFn : String → Option Int) (base : ℚ)
    (attempt : Nat) (s : Nat) (ra : Option String) (b : String) (p : α) (h : s ≠ 429) :
    specWait pyIntFn base attempt (Attempt.resp s ra b p) = backoff base attempt := by
  simp [specWait, h]

theorem wait429_eq_specWait {α : Type} (pyIntFn : String → Option Int)
    (hEmpty : pyIntFn "" = none) (base : ℚ) (attempt : Nat)
    (ra : Option String) (b : String) (p : α) :
    wait429 pyIntFn base attempt ra
      = specWait pyIntFn base attempt (Attempt.resp 429 ra b p) := by
  cases ra with
  | none => simp [wait429, specWait]
  | some h =>
    by_cases hh : h = ""
    · subst hh
      simp [wait429, specWait, hEmpty]
    · cases hv : pyIntFn h with
      | none => simp [wait429, specWait, hh, hv]
      | some n => simp [wait429, specWait, hh, hv]

theorem retry_step_iff (P R : Nat → Prop) (f a : Nat) (hRa : R a) (hPa : ¬ P a) :
    (∃ k, k < f ∧ P (a + 1 + k) ∧ ∀ i, i < k → R (a + 1 + i))
      ↔ (∃ k, k < f + 1 ∧ P (a + k) ∧ ∀ i, i < k → R (a + i)) := by
  constructor
  · rintro ⟨k, hk, hP, hR⟩
    refine ⟨k + 1, by omega, by rw [show a + (k + 1) = a + 1 + k from by omega]; exact hP, ?_⟩
    intro i hi
    cases i with
    | zero => simpa using hRa
    | succ i' =>
      rw [show a + (i' + 1) = a + 1 + i' from by omega]
      exact hR i' (by omega)
  · rintro ⟨k, hk, hP, hR⟩
    cases k with
    | zero => exact absurd (by simpa using hP) hPa
    | succ k' =>
      refine ⟨k', by omega, by rw [show a + 1 + k' = a + (k' + 1) from by omega]; exact hP, ?_⟩
      intro i hi
      rw [show a + 1 + i = a + (i + 1) from by omega]
      exact hR (i + 1) (by omega)

theorem halt_step_iff (P R : Nat → Prop) (f a : Nat) (hnRa : ¬ R a) :
    P a ↔ (∃ k, k < f + 1 ∧ P (a + k) ∧ ∀ i, i < k → R (a + i)) := by
  constructor
  · intro h
    exact ⟨0, by omega, by simpa using h, fun i hi => absurd hi (by omega)⟩
  · rintro ⟨k, hk, hP, hR⟩
    cases k with
    | zero => simpa using hP
    | succ k' => exact absurd (by simpa using hR 0 (by omega)) hnRa

theorem forall_retry_shift (R : Nat → Prop) (f a : Nat) (hRa : R a) :
    (∀ i, i < f → R (a + 1 + i)) ↔ (∀ i, i < f + 1 → R (a + i)) := by
  constructor
  · intro h i hi
    cases i with
    | zero => simpa using hRa
    | succ i' =>
      rw [show a + (i' + 1) = a + 1 + i' from by omega]
      exact h i' (by omega)
  · intro h i hi
    rw [show a + 1 + i = a + (i + 1) from by omega]
    exact h (i + 1) (by omega)

theorem safeGetAux_ok_iff {α : Type} (pyIntFn : String → Option Int)
    (hEmpty : pyIntFn "" = none) (trace : Nat → Attempt α) (base : ℚ) (j : α) :
    ∀ (fuel a : Nat),
      ((safeGetAux pyIntFn trace base a fuel).1 = .ok j
        ↔ ∃ k, k < fuel ∧ (∃ ra b, trace (a + k) = .resp 200 ra b j)
            ∧ ∀ i, i < k → goodStep pyIntFn base trace (a + i)) := by
  intro fuel
  induction fuel with
  | zero =>
    intro a
    simp [safeGetAux]
  | succ f ih =>
    intro a
    have hPR := retry_step_iff (fun n => ∃ ra b, trace n = .resp 200 ra b j)
      (fun n => goodStep pyIntFn base trace n) f a
    have hH := halt_step_iff (fun n => ∃ ra b, trace n = .resp 200 ra b j)
      (fun n => goodStep pyIntFn base trace n) f a
    cases htr : trace a with
    | exn =>
      have hR : retryable (trace a) := by rw [htr]; trivial
      have hW : specWait pyIntFn base a (trace a) = backoff base a := by rw [htr]; rfl
      have hnP : ¬ ∃ ra b, trace a = Attempt.resp 200 ra b j := by
        rintro ⟨ra', b', hc⟩
        rw [htr] at hc
        cases hc
      by_cases hw : backoff base a < 0
      · have hstep : (safeGetAux pyIntFn trace base a (f + 1)).1 = .sleepValueError := by
          simp [safeGetAux, htr, hw]
        have hnG : ¬ goodStep pyIntFn base trace a := by
          intro hg
          have := ((goodStep_def pyIntFn base trace a).mp hg).2
          rw [hW] at this
          exact absurd this (not_le.mpr hw)
        rw [hstep]
        refine Iff.trans ?_ (hH hnG)
        constructor
        · intro hc
          exact FetchResult.noConfusion hc
        · intro hP
          exact absurd hP hnP
      · have hG : goodStep pyIntFn base trace a := by
          refine (goodStep_def pyIntFn base trace a).mpr ⟨hR, ?_⟩
          rw [hW]
          exact not_lt.mp hw
        have hstep : (safeGetAux pyIntFn trace base a (f + 1)).1
            = (safeGetAux pyIntFn trace base (a + 1) f).1 := by
          simp [safeGetAux, htr, hw]
        rw [hstep, ih (a + 1)]
        exact hPR hG hnP
    | resp s ra b p =>
      by_cases hs200 : s = 200
      · subst hs200
        have hnR : ¬ retryable (trace a) := by
          rw [htr]
          rintro (hc | hc) <;> omega
        have hnG : ¬ goodStep pyIntFn base trace a := fun hg =>
          hnR ((goodStep_def pyIntFn base trace a).mp hg).1
        have hstep : (safeGetAux pyIntFn trace base a (f + 1)).1 = .ok p := by
          simp [safeGetAux, htr]
        rw [hstep]
        refine Iff.trans ?_ (hH hnG)
        constructor
        · intro h
          injection h with h'
          exact ⟨ra, b, by rw [htr, h']⟩
        · rintro ⟨ra', b', hc⟩
          rw [htr] at hc
          injection hc with h1 h2 h3 h4
          rw [h4]
      · by_cases h429 : s = 429
        · subst h429
          have hR : retryable (trace a) := by rw [htr]; exact Or.inl rfl
          have hW : specWait pyIntFn base a (trace a) = wait429 pyIntFn base a ra := by
            rw [htr]
            exact (wait429_eq_specWait pyIntFn hEmpty base a ra b p).symm
          have hnP : ¬ ∃ ra b, trace a = Attempt.resp 200 ra b j := by
            rintro ⟨ra', b', hc⟩
            rw [htr] at hc
            injection hc with h1
            omega
          by_cases hw : wait429 pyIntFn base a ra < 0
          · have hstep : (safeGetAux pyIntFn trace base a (f + 1)).1 = .sleepValueError := by
              simp [safeGetAux, htr, hw]
            have hnG : ¬ goodStep pyIntFn base trace a := by
              intro hg
              have := ((goodStep_def pyIntFn base trace a).mp hg).2
              rw [hW] at this
              exact absurd this (not_le.mpr hw)
            rw [hstep]
            refine Iff.trans ?_ (hH hnG)
            constructor
            · intro hc
              exact FetchResult.noConfusion hc
            · intro hP
              exact absurd hP hnP
          · have hG : goodStep pyIntFn base trace a := by
              refine (goodStep_def pyIntFn base trace a).mpr ⟨hR, ?_⟩
              rw [hW]
              exact not_lt.mp hw
            have hstep : (safeGetAux pyIntFn trace base a (f + 1)).1
                = (safeGetAux pyIntFn trace base (a + 1) f).1 := by
              simp [safeGetAux, htr, hw]
            rw [hstep, ih (a + 1)]
            exact hPR hG hnP
        · by_cases h5xx : 500 ≤ s ∧ s < 600
          · have hR : retryable (trace a) := by rw [htr]; exact Or.inr h5xx
            have hW : specWait pyIntFn base a (trace a) = backoff base a := by
              rw [htr]
              exact specWait_not429 pyIntFn base a s ra b p h429
            have hnP : ¬ ∃ ra b, trace a = Attempt.resp 200 ra b j := by
              rintro ⟨ra', b', hc⟩
              rw [htr] at hc
              injection hc with h1
              exact hs200 h1
            by_cases hw : backoff base a < 0
            · have hstep : (safeGetAux pyIntFn trace base a (f + 1)).1
                  = .sleepValueError := by
                simp [safeGetAux, htr, hs200, h429, h5xx, hw]
              have hnG : ¬ goodStep pyIntFn base trace a := by
                intro hg
                have := ((goodStep_def pyIntFn base trace a).mp hg).2
                rw [hW] at this
                exact absurd this (not_le.mpr hw)
              rw [hstep]
              refine Iff.trans ?_ (hH hnG)
              constructor
              · intro hc
                exact FetchResult.noConfusion hc
              · intro hP
                exact absurd hP hnP
            · have hG : goodStep pyIntFn base trace a := by
                refine (goodStep_def pyIntFn base trace a).mpr ⟨hR, ?_⟩
                rw [hW]
                exact not_lt.mp hw
              have hstep : (safeGetAux pyIntFn trace base a (f + 1)).1
                  = (safeGetAux pyIntFn trace base (a + 1) f).1 := by
                simp [safeGetAux, htr, hs200, h429, h5xx, hw]
              rw [hstep, ih (a + 1)]
              exact hPR hG hnP
          · have hnR : ¬ retryable (trace a) := by
              rw [htr]
              rintro (hc | hc)
              · exact h429 hc
              · exact h5xx hc
            have hnG : ¬ goodStep pyIntFn base trace a := fun hg =>
              hnR ((goodStep_def pyIntFn base trace a).mp hg).1
            have hstep : (safeGetAux pyIntFn trace base a (f + 1)).1 = .httpError s b := by
              simp [safeGetAux, htr, hs200, h429, h5xx]
            rw [hstep]
            refine Iff.trans ?_ (hH hnG)
            constructor
            · intro hc
              exact FetchResult.noConfusion hc
            · rintro ⟨ra', b', hc⟩
              rw [htr] at hc
              injection hc with h1
              exact absurd h1 hs200

theorem safeGetAux_httpError_iff {α : Type} (pyIntFn : String → Option Int)
    (hEmpty : pyIntFn "" = none) (trace : Nat → Attempt α) (base : ℚ)
    (S : Nat) (B : String) :
    ∀ (fuel a : Nat),
      ((safeGetAux pyIntFn trace base a fuel).1 = .httpError S B
        ↔ ∃ k, k < fuel ∧ ((∃ ra p, trace (a + k) = .resp S ra B p) ∧ S ≠ 200
            ∧ ¬ retryable (trace (a + k)))
            ∧ ∀ i, i < k → goodStep pyIntFn base trace (a + i)) := by
  intro fuel
  induction fuel with
  | zero =>
    intro a
    simp [safeGetAux]
  | succ f ih =>
    intro a
    have hPR := retry_step_iff
      (fun n => (∃ ra p, trace n = .resp S ra B p) ∧ S ≠ 200 ∧ ¬ retryable (trace n))
      (fun n => goodStep pyIntFn base trace n) f a
    have hH := halt_step_iff
      (fun n => (∃ ra p, trace n = .resp S ra B p) ∧ S ≠ 200 ∧ ¬ retryable (trace n))
      (fun n => goodStep pyIntFn base trace n) f a
    cases htr : trace a with
    | exn =>
      have hR : retryable (trace a) := by rw [htr]; trivial
      have hW : specWait pyIntFn base a (trace a) = backoff base a := by rw [htr]; rfl
      have hnP : ¬ ((∃ ra p, trace a = .resp S ra B p) ∧ S ≠ 200 ∧ ¬ retryable (trace a)) :=
        fun hP => hP.2.2 hR
      by_cases hw : backoff base a < 0
      · have hstep : (safeGetAux pyIntFn trace base a (f + 1)).1 = .sleepValueError := by
          simp [safeGetAux, htr, hw]
        have hnG : ¬ goodStep pyIntFn base trace a := by
          intro hg
          have := ((goodStep_def pyIntFn base trace a).mp hg).2
          rw [hW] at this
          exact absurd this (not_le.mpr hw)
        rw [hstep]
        refine Iff.trans ?_ (hH hnG)
        constructor
        · intro hc
          exact FetchResult.noConfusion hc
        · intro hP
          exact absurd hP hnP
      · have hG : goodStep pyIntFn base trace a := by
          refine (goodStep_def pyIntFn base trace a).mpr ⟨hR, ?_⟩
          rw [hW]
          exact not_lt.mp hw
        have hstep : (safeGetAux pyIntFn trace base a (f + 1)).1
            = (safeGetAux pyIntFn trace base (a + 1) f).1 := by
          simp [safeGetAux, htr, hw]
        rw [hstep, ih (a + 1)]
        exact hPR hG hnP
    | resp s ra b p =>
      by_cases hs200 : s = 200
      · subst hs200
        have hnR : ¬ retryable (trace a) := by
          rw [htr]
          rintro (hc | hc) <;> omega
        have hnG : ¬ goodStep pyIntFn base trace a := fun hg =>
          hnR ((goodStep_def pyIntFn base trace a).mp hg).1
        have hstep : (safeGetAux pyIntFn trace base a (f + 1)).1 = .ok p := by
          simp [safeGetAux, htr]
        rw [hstep]
        refine Iff.trans ?_ (hH hnG)
        constructor
        · intro hc
          exact FetchResult.noConfusion hc
        · rintro ⟨⟨ra', p', hc⟩, hS, -⟩
          rw [htr] at hc
          injection hc with h1
          exact absurd h1.symm hS
      · by_cases h429 : s = 429
        · subst h429
          have hR : retryable (trace a) := by rw [htr]; exact Or.inl rfl
          have hW : specWait pyIntFn base a (trace a) = wait429 pyIntFn base a ra := by
            rw [htr]
            exact (wait429_eq_specWait pyIntFn hEmpty base a ra b p).symm
          have hnP : ¬ ((∃ ra p, trace a = .resp S ra B p) ∧ S ≠ 200
              ∧ ¬ retryable (trace a)) := fun hP => hP.2.2 hR
          by_cases hw : wait429 pyIntFn base a ra < 0
          · have hstep : (safeGetAux pyIntFn trace base a (f + 1)).1 = .sleepValueError := by
              simp [safeGetAux, htr, hw]
            have hnG : ¬ goodStep pyIntFn base trace a := by
              intro hg
              have := ((goodStep_def pyIntFn base trace a).mp hg).2
              rw [hW] at this
              exact absurd this (not_le.mpr hw)
            rw [hstep]
            refine Iff.trans ?_ (hH hnG)
            constructor
            · intro hc
              exact FetchResult.noConfusion hc
            · intro hP
              exact absurd hP hnP
          · have hG : goodStep pyIntFn base trace a := by
              refine (goodStep_def pyIntFn base trace a).mpr ⟨hR, ?_⟩
              rw [hW]
              exact not_lt.mp hw
            have hstep : (safeGetAux pyIntFn trace base a (f + 1)).1
                = (safeGetAux pyIntFn trace base (a + 1) f).1 := by
              simp [safeGetAux, htr, hw]
            rw [hstep, ih (a + 1)]
            exact hPR hG hnP
        · by_cases h5xx : 500 ≤ s ∧ s < 600
          · have hR : retryable (trace a) := by rw [htr]; exact Or.inr h5xx
            have hW : specWait pyIntFn base a (trace a) = backoff base a := by
              rw [htr]
              exact specWait_not429 pyIntFn base a s ra b p h429
            have hnP : ¬ ((∃ ra p, trace a = .resp S ra B p) ∧ S ≠ 200
                ∧ ¬ retryable (trace a)) := fun hP => hP.2.2 hR
            by_cases hw : backoff base a < 0
            · have hstep : (safeGetAux pyIntFn trace base a (f + 1)).1
                  = .sleepValueError := by
                simp [safeGetAux, htr, hs200, h429, h5xx, hw]
              have hnG : ¬ goodStep pyIntFn base trace a := by
                intro hg
                have := ((goodStep_def pyIntFn base trace a).mp hg).2
                rw [hW] at this
                exact absurd this (not_le.mpr hw)
              rw [hstep]
              refine Iff.trans ?_ (hH hnG)
              constructor
              · intro hc
                exact FetchResult.noConfusion hc
              · intro hP
                exact absurd hP hnP
            · have hG : goodStep pyIntFn base trace a := by
                refine (goodStep_def pyIntFn base trace a).mpr ⟨hR, ?_⟩
                rw [hW]
                exact not_lt.mp hw
              have hstep : (safeGetAux pyIntFn trace base a (f + 1)).1
                  = (safeGetAux pyIntFn trace base (a + 1) f).1 := by
                simp [safeGetAux, htr, hs200, h429, h5xx, hw]
              rw [hstep, ih (a + 1)]
              exact hPR hG hnP
          · have hnR : ¬ retryable (trace a) := by
              rw [htr]
              rintro (hc | hc)
              · exact h429 hc
              · exact h5xx hc
            have hnG : ¬ goodStep pyIntFn base trace a := fun hg =>
              hnR ((goodStep_def pyIntFn base trace a).mp hg).1
            have hstep : (safeGetAux pyIntFn trace base a (f + 1)).1 = .httpError s b := by
              simp [safeGetAux, htr, hs200, h429, h5xx]
            rw [hstep]
            refine Iff.trans ?_ (hH hnG)
            constructor
            · intro hc
              injection hc with hS hB
              subst hS
              subst hB
              exact ⟨⟨ra, p, htr⟩, hs200, hnR⟩
            · rintro ⟨⟨ra', p', hc⟩, -, -⟩
              rw [htr] at hc
              injection hc with h1 h2 h3 h4
              rw [h1, h3]

theorem safeGetAux_max_iff {α : Type} (pyIntFn : String → Option Int)
    (hEmpty : pyIntFn "" = none) (trace : Nat → Attempt α) (base : ℚ) :
    ∀ (fuel a : Nat),
      ((safeGetAux pyIntFn trace base a fuel).1 = .maxRetriesExceeded
        ↔ ∀ i, i < fuel → goodStep pyIntFn base trace (a + i)) := by
  intro fuel
  induction fuel with
  | zero =>
    intro a
    simp [safeGetAux]
  | succ f ih =>
    intro a
    cases htr : trace a with
    | exn =>
      have hR : retryable (trace a) := by rw [htr]; trivial
      have hW : specWait pyIntFn base a (trace a) = backoff base a := by rw [htr]; rfl
      by_cases hw : backoff base a < 0
      · have hstep : (safeGetAux pyIntFn trace base a (f + 1)).1 = .sleepValueError := by
          simp [safeGetAux, htr, hw]
        have hnG : ¬ goodStep pyIntFn base trace a := by
          intro hg
          have := ((goodStep_def pyIntFn base trace a).mp hg).2
          rw [hW] at this
          exact absurd this (not_le.mpr hw)
        rw [hstep]
        constructor
        · intro hc
          exact FetchResult.noConfusion hc
        · intro h
          have h0 := h 0 (by omega)
          rw [Nat.add_zero] at h0
          exact absurd h0 hnG
      · have hG : goodStep pyIntFn base trace a := by
          refine (goodStep_def pyIntFn base trace a).mpr ⟨hR, ?_⟩
          rw [hW]
          exact not_lt.mp hw
        have hstep : (safeGetAux pyIntFn trace base a (f + 1)).1
            = (safeGetAux pyIntFn trace base (a + 1) f).1 := by
          simp [safeGetAux, htr, hw]
        rw [hstep, ih (a + 1)]
        exact forall_retry_shift (fun n => goodStep pyIntFn base trace n) f a hG
    | resp s ra b p =>
      by_cases hs200 : s = 200
      · subst hs200
        have hnR : ¬ retryable (trace a) := by
          rw [htr]
          rintro (hc | hc) <;> omega
        have hnG : ¬ goodStep pyIntFn base trace a := fun hg =>
          hnR ((goodStep_def pyIntFn base trace a).mp hg).1
        have hstep : (safeGetAux pyIntFn trace base a (f + 1)).1 = .ok p := by
          simp [safeGetAux, htr]
        rw [hstep]
        constructor
        · intro hc
          exact FetchResult.noConfusion hc
        · intro h
          have h0 := h 0 (by omega)
          rw [Nat.add_zero] at h0
          exact absurd h0 hnG
      · by_cases h429 : s = 429
        · subst h429
          have hR : retryable (trace a) := by rw [htr]; exact Or.inl rfl
          have hW : specWait pyIntFn base a (trace a) = wait429 pyIntFn base a ra := by
            rw [htr]
            exact (wait429_eq_specWait pyIntFn hEmpty base a ra b p).symm
          by_cases hw : wait429 pyIntFn base a ra < 0
          · have hstep : (safeGetAux pyIntFn trace base a (f + 1)).1 = .sleepValueError := by
              simp [safeGetAux, htr, hw]
            have hnG : ¬ goodStep pyIntFn base trace a := by
              intro hg
              have := ((goodStep_def pyIntFn base trace a).mp hg).2
              rw [hW] at this
              exact absurd this (not_le.mpr hw)
            rw [hstep]
            constructor
            · intro hc
              exact FetchResult.noConfusion hc
            · intro h
              have h0 := h 0 (by omega)
              rw [Nat.add_zero] at h0
              exact absurd h0 hnG
          · have hG : goodStep pyIntFn base trace a := by
              refine (goodStep_def pyIntFn base trace a).mpr ⟨hR, ?_⟩
              rw [hW]
              exact not_lt.mp hw
            have hstep : (safeGetAux pyIntFn trace base a (f + 1)).1
                = (safeGetAux pyIntFn trace base (a + 1) f).1 := by
              simp [safeGetAux, htr, hw]
            rw [hstep, ih (a + 1)]
            exact forall_retry_shift (fun n => goodStep pyIntFn base trace n) f a hG
        · by_cases h5xx : 500 ≤ s ∧ s < 600
          · have hR : retryable (trace a) := by rw [htr]; exact Or.inr h5xx
            have hW : specWait pyIntFn base a (trace a) = backoff base a := by
              rw [htr]
              exact specWait_not429 pyIntFn base a s ra b p h429
            by_cases hw : backoff base a < 0
            · have hstep : (safeGetAux pyIntFn trace base a (f + 1)).1
                  = .sleepValueError := by
                simp [safeGetAux, htr, hs200, h429, h5xx, hw]
              have hnG : ¬ goodStep pyIntFn base trace a := by
                intro hg
                have := ((goodStep_def pyIntFn base trace a).mp hg).2
                rw [hW] at this
                exact absurd this (not_le.mpr hw)
              rw [hstep]
              constructor
              · intro hc
                exact FetchResult.noConfusion hc
              · intro h
                have h0 := h 0 (by omega)
                rw [Nat.add_zero] at h0
                exact absurd h0 hnG
            · have hG : goodStep pyIntFn base trace a := by
                refine (goodStep_def pyIntFn base trace a).mpr ⟨hR, ?_⟩
                rw [hW]
                exact not_lt.mp hw
              have hstep : (safeGetAux pyIntFn trace base a (f + 1)).1
                  = (safeGetAux pyIntFn trace base (a + 1) f).1 := by
                simp [safeGetAux, htr, hs200, h429, h5xx, hw]
              rw [hstep, ih (a + 1)]
              exact forall_retry_shift (fun n => goodStep pyIntFn base trace n) f a hG
          · have hnR : ¬ retryable (trace a) := by
              rw [htr]
              rintro (hc | hc)
              · exact h429 hc
              · exact h5xx hc
            have hnG : ¬ goodStep pyIntFn base trace a := fun hg =>
              hnR ((goodStep_def pyIntFn base trace a).mp hg).1
            have hstep : (safeGetAux pyIntFn trace base a (f + 1)).1 = .httpError s b := by
              simp [safeGetAux, htr, hs200, h429, h5xx]
            rw [hstep]
            constructor
            · intro hc
              exact FetchResult.noConfusion hc
            · intro h
              have h0 := h 0 (by omega)
              rw [Nat.add_zero] at h0
              exact absurd h0 hnG

theorem safeGetAux_valueError_iff {α : Type} (pyIntFn : String → Option Int)
    (hEmpty : pyIntFn "" = none) (trace : Nat → Attempt α) (base : ℚ) :
    ∀ (fuel a : Nat),
      ((safeGetAux pyIntFn trace base a fuel).1 = .sleepValueError
        ↔ ∃ k, k < fuel ∧ (retryable (trace (a + k))
            ∧ specWait pyIntFn base (a + k) (trace (a + k)) < 0)
            ∧ ∀ i, i < k → goodStep pyIntFn base trace (a + i)) := by
  intro fuel
  induction fuel with
  | zero =>
    intro a
    simp [safeGetAux]
  | succ f ih =>
    intro a
    have hPR := retry_step_iff
      (fun n => retryable (trace n) ∧ specWait pyIntFn base n (trace n) < 0)
      (fun n => goodStep pyIntFn base trace n) f a
    have hH := halt_step_iff
      (fun n => retryable (trace n) ∧ specWait pyIntFn base n (trace n) < 0)
      (fun n => goodStep pyIntFn base trace n) f a
    cases htr : trace a with
    | exn =>
      have hR : retryable (trace a) := by rw [htr]; trivial
      have hW : specWait pyIntFn base a (trace a) = backoff base a := by rw [htr]; rfl
      by_cases hw : backoff base a < 0
      · have hstep : (safeGetAux pyIntFn trace base a (f + 1)).1 = .sleepValueError := by
          simp [safeGetAux, htr, hw]
        have hnG : ¬ goodStep pyIntFn base trace a := by
          intro hg
          have := ((goodStep_def pyIntFn base trace a).mp hg).2
          rw [hW] at this
          exact absurd this (not_le.mpr hw)
        rw [hstep]
        refine Iff.trans ?_ (hH hnG)
        constructor
        · intro _
          exact ⟨hR, by rw [hW]; exact hw⟩
        · intro _
          rfl
      · have hG : goodStep pyIntFn base trace a := by
          refine (goodStep_def pyIntFn base trace a).mpr ⟨hR, ?_⟩
          rw [hW]
          exact not_lt.mp hw
        have hnP : ¬ (retryable (trace a) ∧ specWait pyIntFn base a (trace a) < 0) := by
          rintro ⟨-, hlt⟩
          rw [hW] at hlt
          exact hw hlt
        have hstep : (safeGetAux pyIntFn trace base a (f + 1)).1
            = (safeGetAux pyIntFn trace base (a + 1) f).1 := by
          simp [safeGetAux, htr, hw]
        rw [hstep, ih (a + 1)]
        exact hPR hG hnP
    | resp s ra b p =>
      by_cases hs200 : s = 200
      · subst hs200
        have hnR : ¬ retryable (trace a) := by
          rw [htr]
          rintro (hc | hc) <;> omega
        have hnG : ¬ goodStep pyIntFn base trace a := fun hg =>
          hnR ((goodStep_def pyIntFn base trace a).mp hg).1
        have hstep : (safeGetAux pyIntFn trace base a (f + 1)).1 = .ok p := by
          simp [safeGetAux, htr]
        rw [hstep]
        refine Iff.trans ?_ (hH hnG)
        constructor
        · intro hc
          exact FetchResult.noConfusion hc
        · rintro ⟨hr, -⟩
          exact absurd hr hnR
      · by_cases h429 : s = 429
        · subst h429
          have hR : retryable (trace a) := by rw [htr]; exact Or.inl rfl
          have hW : specWait pyIntFn base a (trace a) = wait429 pyIntFn base a ra := by
            rw [htr]
            exact (wait429_eq_specWait pyIntFn hEmpty base a ra b p).symm
          by_cases hw : wait429 pyIntFn base a ra < 0
          · have hstep : (safeGetAux pyIntFn trace base a (f + 1)).1 = .sleepValueError := by
              simp [safeGetAux, htr, hw]
            have hnG : ¬ goodStep pyIntFn base trace a := by
              intro hg
              have := ((goodStep_def pyIntFn base trace a).mp hg).2
              rw [hW] at this
              exact absurd this (not_le.mpr hw)
            rw [hstep]
            refine Iff.trans ?_ (hH hnG)
            constructor
            · intro _
              exact ⟨hR, by rw [hW]; exact hw⟩
            · intro _
              rfl
          · have hG : goodStep pyIntFn base trace a := by
              refine (goodStep_def pyIntFn base trace a).mpr ⟨hR, ?_⟩
              rw [hW]
              exact not_lt.mp hw
            have hnP : ¬ (retryable (trace a) ∧ specWait pyIntFn base a (trace a) < 0) := by
              rintro ⟨-, hlt⟩
              rw [hW] at hlt
              exact hw hlt
            have hstep : (safeGetAux pyIntFn trace base a (f + 1)).1
                = (safeGetAux pyIntFn trace base (a + 1) f).1 := by
              simp [safeGetAux, htr, hw]
            rw [hstep, ih (a + 1)]
            exact hPR hG hnP
        · by_cases h5xx : 500 ≤ s ∧ s < 600
          · have hR : retryable (trace a) := by rw [htr]; exact Or.inr h5xx
            have hW : specWait pyIntFn base a (trace a) = backoff base a := by
              rw [htr]
              exact specWait_not429 pyIntFn base a s ra b p h429
            by_cases hw : backoff base a < 0
            · have hstep : (safeGetAux pyIntFn trace base a (f + 1)).1
                  = .sleepValueError := by
                simp [safeGetAux, htr, hs200, h429, h5xx, hw]
              have hnG : ¬ goodStep pyIntFn base trace a := by
                intro hg
                have := ((goodStep_def pyIntFn base trace a).mp hg).2
                rw [hW] at this
                exact absurd this (not_le.mpr hw)
              rw [hstep]
              refine Iff.trans ?_ (hH hnG)
              constructor
              · intro _
                exact ⟨hR, by rw [hW]; exact hw⟩
              · intro _
                rfl
            · have hG : goodStep pyIntFn base trace a := by
                refine (goodStep_def pyIntFn base trace a).mpr ⟨hR, ?_⟩
                rw [hW]
                exact not_lt.mp hw
              have hnP : ¬ (retryable (trace a)
                  ∧ specWait pyIntFn base a (trace a) < 0) := by
                rintro ⟨-, hlt⟩
                rw [hW] at hlt
                exact hw hlt
              have hstep : (safeGetAux pyIntFn trace base a (f + 1)).1
                  = (safeGetAux pyIntFn trace base (a + 1) f).1 := by
                simp [safeGetAux, htr, hs200, h429, h5xx, hw]
              rw [hstep, ih (a + 1)]
              exact hPR hG hnP
          · have hnR : ¬ retryable (trace a) := by
              rw [htr]
              rintro (hc | hc)
              · exact h429 hc
              · exact h5xx hc
            have hnG : ¬ goodStep pyIntFn base trace a := fun hg =>
              hnR ((goodStep_def pyIntFn base trace a).mp hg).1
            have hstep : (safeGetAux pyIntFn trace base a (f + 1)).1 = .httpError s b := by
              simp [safeGetAux, htr, hs200, h429, h5xx]
            rw [hstep]
            refine Iff.trans ?_ (hH hnG)
            constructor
            · intro hc
              exact FetchResult.noConfusion hc
            · rintro ⟨hr, -⟩
              exact absurd hr hnR

theorem takeWhile_cons_pos {α : Type} (p : α → Bool) (a : α) (l : List α)
    (h : p a = true) : (a :: l).takeWhile p = a :: l.takeWhile p := by
  simp [List.takeWhile, h]

theorem takeWhile_cons_neg {α : Type} (p : α → Bool) (a : α) (l : List α)
    (h : p a = false) : (a :: l).takeWhile p = [] := by
  simp [List.takeWhile, h]

theorem safeGetAux_sleeps {α : Type} (pyIntFn : String → Option Int)
    (hEmpty : pyIntFn "" = none) (trace : Nat → Attempt α) (base : ℚ) :
    ∀ (fuel a : Nat),
      (safeGetAux pyIntFn trace base a fuel).1 ≠ .sleepValueError →
      (safeGetAux pyIntFn trace base a fuel).2
        = ((List.range' a fuel).takeWhile (fun i => decide (retryable (trace i)))).map
            (fun i => specWait pyIntFn base i (trace i)) := by
  intro fuel
  induction fuel with
  | zero =>
    intro a _
    simp [safeGetAux]
  | succ f ih =>
    intro a hne
    have hrange : List.range' a (f + 1) = a :: List.range' (a + 1) f := rfl
    rw [hrange]
    cases htr : trace a with
    | exn =>
      have hR : retryable (trace a) := by rw [htr]; trivial
      have hW : specWait pyIntFn base a (trace a) = backoff base a := by rw [htr]; rfl
      have hpa : (fun i => decide (retryable (trace i))) a = true := decide_eq_true hR
      by_cases hw : backoff base a < 0
      · have hstep : (safeGetAux pyIntFn trace base a (f + 1)).1 = .sleepValueError := by
          simp [safeGetAux, htr, hw]
        exact absurd hstep hne
      · have hstep1 : (safeGetAux pyIntFn trace base a (f + 1)).1
            = (safeGetAux pyIntFn trace base (a + 1) f).1 := by
          simp [safeGetAux, htr, hw]
        have hstep2 : (safeGetAux pyIntFn trace base a (f + 1)).2
            = backoff base a :: (safeGetAux pyIntFn trace base (a + 1) f).2 := by
          simp [safeGetAux, htr, hw]
        rw [hstep2,
          takeWhile_cons_pos (fun i => decide (retryable (trace i))) a
            (List.range' (a + 1) f) hpa,
          List.map_cons, ih (a + 1) (hstep1 ▸ hne), hW]
    | resp s ra b p =>
      by_cases hs200 : s = 200
      · subst hs200
        have hnR : ¬ retryable (trace a) := by
          rw [htr]
          rintro (hc | hc) <;> omega
        have hpa : (fun i => decide (retryable (trace i))) a = false := decide_eq_false hnR
        have hstep2 : (safeGetAux pyIntFn trace base a (f + 1)).2 = [] := by
          simp [safeGetAux, htr]
        rw [hstep2,
          takeWhile_cons_neg (fun i => decide (retryable (trace i))) a
            (List.range' (a + 1) f) hpa,
          List.map_nil]
      · by_cases h429 : s = 429
        · subst h429
          have hR : retryable (trace a) := by rw [htr]; exact Or.inl rfl
          have hW : specWait pyIntFn base a (trace a) = wait429 pyIntFn base a ra := by
            rw [htr]
            exact (wait429_eq_specWait pyIntFn hEmpty base a ra b p).symm
          have hpa : (fun i => decide (retryable (trace i))) a = true := decide_eq_true hR
          by_cases hw : wait429 pyIntFn base a ra < 0
          · have hstep : (safeGetAux pyIntFn trace base a (f + 1)).1 = .sleepValueError := by
              simp [safeGetAux, htr, hw]
            exact absurd hstep hne
          · have hstep1 : (safeGetAux pyIntFn trace base a (f + 1)).1
                = (safeGetAux pyIntFn trace base (a + 1) f).1 := by
              simp [safeGetAux, htr, hw]
            have hstep2 : (safeGetAux pyIntFn trace base a (f + 1)).2
                = wait429 pyIntFn base a ra
                    :: (safeGetAux pyIntFn trace base (a + 1) f).2 := by
              simp [safeGetAux, htr, hw]
            rw [hstep2,
              takeWhile_cons_pos (fun i => decide (retryable (trace i))) a
                (List.range' (a + 1) f) hpa,
              List.map_cons, ih (a + 1) (hstep1 ▸ hne), hW]
        · by_cases h5xx : 500 ≤ s ∧ s < 600
          · have hR : retryable (trace a) := by rw [htr]; exact Or.inr h5xx
            have hW : specWait pyIntFn base a (trace a) = backoff base a := by
              rw [htr]
              exact specWait_not429 pyIntFn base a s ra b p h429
            have hpa : (fun i => decide (retryable (trace i))) a = true := decide_eq_true hR
            by_cases hw : backoff base a < 0
            · have hstep : (safeGetAux pyIntFn trace base a (f + 1)).1
                  = .sleepValueError := by
                simp [safeGetAux, htr, hs200, h429, h5xx, hw]
              exact absurd hstep hne
            · have hstep1 : (safeGetAux pyIntFn trace base a (f + 1)).1
                  = (safeGetAux pyIntFn trace base (a + 1) f).1 := by
                simp [safeGetAux, htr, hs200, h429, h5xx, hw]
              have hstep2 : (safeGetAux pyIntFn trace base a (f + 1)).2
                  = backoff base a :: (safeGetAux pyIntFn trace base (a + 1) f).2 := by
                simp [safeGetAux, htr, hs200, h429, h5xx, hw]
              rw [hstep2,
                takeWhile_cons_pos (fun i => decide (retryable (trace i))) a
                  (List.range' (a + 1) f) hpa,
                List.map_cons, ih (a + 1) (hstep1 ▸ hne), hW]
          · have hnR : ¬ retryable (trace a) := by
              rw [htr]
              rintro (hc | hc)
              · exact h429 hc
              · exact h5xx hc
            have hpa : (fun i => decide (retryable (trace i))) a = false :=
              decide_eq_false hnR
            have hstep2 : (safeGetAux pyIntFn trace base a (f + 1)).2 = [] := by
              simp [safeGetAux, htr, hs200, h429, h5xx]
            rw [hstep2,
              takeWhile_cons_neg (fun i => decide (retryable (trace i))) a
                (List.range' (a + 1) f) hpa,
              List.map_nil]

theorem safeGetAux_abort {α : Type} (pyIntFn : String → Option Int)
    (hEmpty : pyIntFn "" = none) (trace : Nat → Attempt α) (base : ℚ) :
    ∀ (fuel a : Nat),
      (safeGetAux pyIntFn trace base a fuel).1 = .sleepValueError →
      ∃ k, k < fuel ∧ retryable (trace (a + k))
        ∧ specWait pyIntFn base (a + k) (trace (a + k)) < 0
        ∧ (∀ i, i < k → goodStep pyIntFn base trace (a + i))
        ∧ (safeGetAux pyIntFn trace base a fuel).2
            = (List.range' a (k + 1)).map (fun i => specWait pyIntFn base i (trace i)) := by
  intro fuel
  induction fuel with
  | zero =>
    intro a h
    cases h
  | succ f ih =>
    intro a hab
    cases htr : trace a with
    | exn =>
      have hR : retryable (trace a) := by rw [htr]; trivial
      have hW : specWait pyIntFn base a (trace a) = backoff base a := by rw [htr]; rfl
      by_cases hw : backoff base a < 0
      · have hstep2 : (safeGetAux pyIntFn trace base a (f + 1)).2 = [backoff base a] := by
          simp [safeGetAux, htr, hw]
        refine ⟨0, by omega, ?_, ?_, fun i hi => absurd hi (by omega), ?_⟩
        · rw [Nat.add_zero]
          exact hR
        · rw [Nat.add_zero, hW]
          exact hw
        · rw [hstep2]
          show [backoff base a] = [a].map (fun i => specWait pyIntFn base i (trace i))
          rw [List.map_cons, List.map_nil, hW]
      · have hG : goodStep pyIntFn base trace a := by
          refine (goodStep_def pyIntFn base trace a).mpr ⟨hR, ?_⟩
          rw [hW]
          exact not_lt.mp hw
        have hstep1 : (safeGetAux pyIntFn trace base a (f + 1)).1
            = (safeGetAux pyIntFn trace base (a + 1) f).1 := by
          simp [safeGetAux, htr, hw]
        have hstep2 : (safeGetAux pyIntFn trace base a (f + 1)).2
            = backoff base a :: (safeGetAux pyIntFn trace base (a + 1) f).2 := by
          simp [safeGetAux, htr, hw]
        obtain ⟨k', hk', hr', hlt', hgood', hsl'⟩ := ih (a + 1) (hstep1 ▸ hab)
        refine ⟨k' + 1, by omega, ?_, ?_, ?_, ?_⟩
        · rw [show a + (k' + 1) = a + 1 + k' from by omega]
          exact hr'
        · rw [show a + (k' + 1) = a + 1 + k' from by omega]
          exact hlt'
        · intro i hi
          cases i with
          | zero => simpa using hG
          | succ i' =>
            rw [show a + (i' + 1) = a + 1 + i' from by omega]
            exact hgood' i' (by omega)
        · rw [hstep2, hsl',
            show List.range' a (k' + 1 + 1) = a :: List.range' (a + 1) (k' + 1) from rfl,
            List.map_cons, hW]
    | resp s ra b p =>
      by_cases hs200 : s = 200
      · have hstep : (safeGetAux pyIntFn trace base a (f + 1)).1 = .ok p := by
          subst hs200
          simp [safeGetAux, htr]
        rw [hstep] at hab
        cases hab
      · by_cases h429 : s = 429
        · subst h429
          have hR : retryable (trace a) := by rw [htr]; exact Or.inl rfl
          have hW : specWait pyIntFn base a (trace a) = wait429 pyIntFn base a ra := by
            rw [htr]
            exact (wait429_eq_specWait pyIntFn hEmpty base a ra b p).symm
          by_cases hw : wait429 pyIntFn base a ra < 0
          · have hstep2 : (safeGetAux pyIntFn trace base a (f + 1)).2
                = [wait429 pyIntFn base a ra] := by
              simp [safeGetAux, htr, hw]
            refine ⟨0, by omega, ?_, ?_, fun i hi => absurd hi (by omega), ?_⟩
            · rw [Nat.add_zero]
              exact hR
            · rw [Nat.add_zero, hW]
              exact hw
            · rw [hstep2]
              show [wait429 pyIntFn base a ra]
                = [a].map (fun i => specWait pyIntFn base i (trace i))
              rw [List.map_cons, List.map_nil, hW]
          · have hG : goodStep pyIntFn base trace a := by
              refine (goodStep_def pyIntFn base trace a).mpr ⟨hR, ?_⟩
              rw [hW]
              exact not_lt.mp hw
            have hstep1 : (safeGetAux pyIntFn trace base a (f + 1)).1
                = (safeGetAux pyIntFn trace base (a + 1) f).1 := by
              simp [safeGetAux, htr, hw]
            have hstep2 : (safeGetAux pyIntFn trace base a (f + 1)).2
                = wait429 pyIntFn base a ra
                    :: (safeGetAux pyIntFn trace base (a + 1) f).2 := by
              simp [safeGetAux, htr, hw]
            obtain ⟨k', hk', hr', hlt', hgood', hsl'⟩ := ih (a + 1) (hstep1 ▸ hab)
            refine ⟨k' + 1, by omega, ?_, ?_, ?_, ?_⟩
            · rw [show a + (k' + 1) = a + 1 + k' from by omega]
              exact hr'
            · rw [show a + (k' + 1) = a + 1 + k' from by omega]
              exact hlt'
            · intro i hi
              cases i with
              | zero => simpa using hG
              | succ i' =>
                rw [show a + (i' + 1) = a + 1 + i' from by omega]
                exact hgood' i' (by omega)
            · rw [hstep2, hsl',
                show List.range' a (k' + 1 + 1) = a :: List.range' (a + 1) (k' + 1) from rfl,
                List.map_cons, hW]
        · by_cases h5xx : 500 ≤ s ∧ s < 600
          · have hR : retryable (trace a) := by rw [htr]; exact Or.inr h5xx
            have hW : specWait pyIntFn base a (trace a) = backoff base a := by
              rw [htr]
              exact specWait_not429 pyIntFn base a s ra b p h429
            by_cases hw : backoff base a < 0
            · have hstep2 : (safeGetAux pyIntFn trace base a (f + 1)).2
                  = [backoff base a] := by
                simp [safeGetAux, htr, hs200, h429, h5xx, hw]
              refine ⟨0, by omega, ?_, ?_, fun i hi => absurd hi (by omega), ?_⟩
              · rw [Nat.add_zero]
                exact hR
              · rw [Nat.add_zero, hW]
                exact hw
              · rw [hstep2]
                show [backoff base a] = [a].map (fun i => specWait pyIntFn base i (trace i))
                rw [List.map_cons, List.map_nil, hW]
            · have hG : goodStep pyIntFn base trace a := by
                refine (goodStep_def pyIntFn base trace a).mpr ⟨hR, ?_⟩
                rw [hW]
                exact not_lt.mp hw
              have hstep1 : (safeGetAux pyIntFn trace base a (f + 1)).1
                  = (safeGetAux pyIntFn trace base (a + 1) f).1 := by
                simp [safeGetAux, htr, hs200, h429, h5xx, hw]
              have hstep2 : (safeGetAux pyIntFn trace base a (f + 1)).2
                  = backoff base a :: (safeGetAux pyIntFn trace base (a + 1) f).2 := by
                simp [safeGetAux, htr, hs200, h429, h5xx, hw]
              obtain ⟨k', hk', hr', hlt', hgood', hsl'⟩ := ih (a + 1) (hstep1 ▸ hab)
              refine ⟨k' + 1, by omega, ?_, ?_, ?_, ?_⟩
              · rw [show a + (k' + 1) = a + 1 + k' from by omega]
                exact hr'
              · rw [show a + (k' + 1) = a + 1 + k' from by omega]
                exact hlt'
              · intro i hi
                cases i with
                | zero => simpa using hG
                | succ i' =>
                  rw [show a + (i' + 1) = a + 1 + i' from by omega]
                  exact hgood' i' (by omega)
              · rw [hstep2, hsl',
                  show List.range' a (k' + 1 + 1)
                    = a :: List.range' (a + 1) (k' + 1) from rfl,
                  List.map_cons, hW]
          · have hstep : (safeGetAux pyIntFn trace base a (f + 1)).1 = .httpError s b := by
              simp [safeGetAux, htr, hs200, h429, h5xx]
            rw [hstep] at hab
            cases hab

/-- Claim C3, counterexample.  A first attempt answering 429 with
`Retry-After: "-1"` - which Python's `int` parses to -1 - makes the
program pass -1 to `time.sleep`, which raises an uncaught `ValueError`:
`safe_get` aborts instead of retrying, even though a second attempt
would have answered 200.  The outcome is neither the parsed body, nor an
HTTP error, nor the "Max retries exceeded" error the claim allows. -/
theorem safe_get_counterexample :
    (safe_get pyInt?
      (fun i => if i = 0 then Attempt.resp 429 (some "-1") "rate limited" (0 : Nat)
        else Attempt.resp 200 none "" 42) 1 6).1 = .sleepValueError
    ∧ pyInt? "-1" = some (-1)
    ∧ retryable (Attempt.resp 429 (some "-1") "rate limited" (0 : Nat))
    ∧ (FetchResult.sleepValueError : FetchResult Nat) ≠ .ok 42
    ∧ (FetchResult.sleepValueError : FetchResult Nat) ≠ .maxRetriesExceeded
    ∧ (FetchResult.sleepValueError : FetchResult Nat) ≠ .httpError 429 "rate limited" := by
  refine ⟨?_, ?_, ?_, ?_, ?_, ?_⟩ <;> decide

/-- Claim C3, amended.  For any semantics `pyIntFn` of the stdlib
`int()` (with `int("")` raising): with the default bound of 6 attempts,
the result is the parsed body of the first attempt answering 200,
reached only across surviving retryable attempts (transport exception,
429, 5xx, each with a nonnegative computed wait); the first
non-retryable non-200 response raises immediately with its status and
body; six surviving retryable attempts exhaust the loop into the "Max
retries exceeded" error; a retryable attempt whose computed wait is
negative - a 429 whose `Retry-After` parses to a negative integer, or a
negative backoff base - makes `time.sleep` raise an uncaught
`ValueError` that aborts `safe_get`; and the waits slept are, for each
retried attempt in order, `base * 2 ^ attempt`, except on a 429 whose
`Retry-After` header parses as an integer, which overrides the wait with
that value (the aborting negative wait being the last value passed to
`time.sleep`). -/
theorem safe_get_contract {α : Type} (pyIntFn : String → Option Int)
    (hEmpty : pyIntFn "" = none) (trace : Nat → Attempt α) (base : ℚ) :
    (∀ j : α, (safe_get pyIntFn trace base 6).1 = .ok j
      ↔ ∃ k, k < 6 ∧ (∃ ra b, trace k = .resp 200 ra b j)
          ∧ ∀ i, i < k → goodStep pyIntFn base trace i)
    ∧ (∀ (S : Nat) (B : String), (safe_get pyIntFn trace base 6).1 = .httpError S B
      ↔ ∃ k, k < 6 ∧ ((∃ ra p, trace k = .resp S ra B p) ∧ S ≠ 200
          ∧ ¬ retryable (trace k))
          ∧ ∀ i, i < k → goodStep pyIntFn base trace i)
    ∧ ((safe_get pyIntFn trace base 6).1 = .maxRetriesExceeded
      ↔ ∀ i, i < 6 → goodStep pyIntFn base trace i)
    ∧ ((safe_get pyIntFn trace base 6).1 = .sleepValueError
      ↔ ∃ k, k < 6 ∧ (retryable (trace k) ∧ specWait pyIntFn base k (trace k) < 0)
          ∧ ∀ i, i < k → goodStep pyIntFn base trace i)
    ∧ ((safe_get pyIntFn trace base 6).1 ≠ .sleepValueError →
        (safe_get pyIntFn trace base 6).2
          = ((List.range 6).takeWhile (fun i => decide (retryable (trace i)))).map
              (fun i => specWait pyIntFn base i (trace i)))
    ∧ ((safe_get pyIntFn trace base 6).1 = .sleepValueError →
        ∃ k, k < 6 ∧ retryable (trace k) ∧ specWait pyIntFn base k (trace k) < 0
          ∧ (∀ i, i < k → goodStep pyIntFn base trace i)
          ∧ (safe_get pyIntFn trace base 6).2
              = (List.range (k + 1)).map (fun i => specWait pyIntFn base i (trace i))) := by
  refine ⟨fun j => ?_, fun S B => ?_, ?_, ?_, ?_, ?_⟩
  · have h := safeGetAux_ok_iff pyIntFn hEmpty trace base j 6 0
    simpa [safe_get] using h
  · have h := safeGetAux_httpError_iff pyIntFn hEmpty trace base S B 6 0
    simpa [safe_get] using h
  · have h := safeGetAux_max_iff pyIntFn hEmpty trace base 6 0
    simpa [safe_get] using h
  · have h := safeGetAux_valueError_iff pyIntFn hEmpty trace base 6 0
    simpa [safe_get] using h
  · intro hne
    have h := safeGetAux_sleeps pyIntFn hEmpty trace base 6 0 hne
    rw [List.range_eq_range']
    simpa [safe_get] using h
  · intro hab
    obtain ⟨k, hk, hr, hlt, hgood, hsl⟩ := safeGetAux_abort pyIntFn hEmpty trace base 6 0 hab
    refine ⟨k, hk, by simpa using hr, by simpa using hlt, ?_, ?_⟩
    · intro i hi
      simpa using hgood i hi
    · rw [List.range_eq_range']
      simpa using hsl

/-- Witness for `safe_get_contract` at the concrete oracle `pyInt?`: a
transport error on the first attempt followed by a 200 yields the parsed
payload. -/
theorem safe_get_contract_witness :
    pyInt? "" = none
    ∧ (safe_get pyInt?
        (fun i => if i = 0 then Attempt.exn else Attempt.resp 200 none "" (42 : Nat))
        1 6).1 = .ok 42 := by
  refine ⟨rfl, ?_⟩
  refine ((safe_get_contract pyInt? rfl
    (fun i => if i = 0 then Attempt.exn else Attempt.resp 200 none "" (42 : Nat)) 1).1
      42).mpr ?_
  refine ⟨1, by omega, ⟨none, "", by simp⟩, ?_⟩
  intro i hi
  have hi0 : i = 0 := by omega
  subst hi0
  refine (goodStep_def pyInt? 1 _ 0).mpr ⟨?_, ?_⟩
  · show retryable (Attempt.exn : Attempt Nat)
    trivial
  · show (0 : ℚ) ≤ specWait pyInt? 1 0 (Attempt.exn : Attempt Nat)
    show (0 : ℚ) ≤ backoff 1 0
    norm_num [backoff]

/-! ## Calendar dates and the month partitioner (claim C1)

Dates are modelled after parsing (`pd.to_datetime(...)` is an external
collaborator) as year/month/day triples ordered lexicographically, with
Gregorian month lengths exactly as Python's `datetime.date` has them.
`month_ranges` embeds the loop

    cur = date(s.year, s.month, 1)
    while cur <= e:
        nxt = cur + relativedelta(months=1)
        last_day = nxt - timedelta(days=1)
        out.append((cur, min(last_day, e)))
        cur = nxt

The cursor is always the first day of a month, so it is represented by
its month index `ym` (`year * 12 + (month - 1)`), `nxt - 1 day` is the
last day of `cur`'s month (`monthEnd`), and the loop is bounded by the
exact iteration count `ymIdx e + 1 - ymIdx s`: by `monthStart_le_iff`
the guard `cur <= e` holds precisely while `ym ≤ ymIdx e`, so the bound
never truncates the Python `while` loop.  The returned dates are
rendered by `date.isoformat()` in the source; the claims are settled at
the date level. -/

structure Date where
  year : Nat
  month : Nat
  day : Nat
deriving DecidableEq

/-- Lexicographic order on dates, as Python compares `datetime.date`
values. -/
def Date.le (a b : Date) : Prop :=
  a.year < b.year ∨ (a.year = b.year ∧
    (a.month < b.month ∨ (a.month = b.month ∧ a.day ≤ b.day)))

def Date.lt (a b : Date) : Prop :=
  a.year < b.year ∨ (a.year = b.year ∧
    (a.month < b.month ∨ (a.month = b.month ∧ a.day < b.day)))

instance (a b : Date) : Decidable (a.le b) :=
  inferInstanceAs (Decidable (a.year < b.year ∨ (a.year = b.year ∧
    (a.month < b.month ∨ (a.month = b.month ∧ a.day ≤ b.day)))))

instance (a b : Date) : Decidable (a.lt b) :=
  inferInstanceAs (Decidable (a.year < b.year ∨ (a.year = b.year ∧
    (a.month < b.month ∨ (a.month = b.month ∧ a.day < b.day)))))

def isLeap (y : Nat) : Bool :=
  y % 4 == 0 && (y % 100 != 0 || y % 400 == 0)

def daysInMonth (y m : Nat) : Nat :=
  if m = 2 then (if isLeap y then 29 else 28)
  else if m = 4 ∨ m = 6 ∨ m = 9 ∨ m = 11 then 30
  else 31

def Date.Valid (d : Date) : Prop :=
  1 ≤ d.month ∧ d.month ≤ 12 ∧ 1 ≤ d.day ∧ d.day ≤ daysInMonth d.year d.month

instance (d : Date) : Decidable d.Valid :=
  inferInstanceAs (Decidable (1 ≤ d.month ∧ d.month ≤ 12 ∧ 1 ≤ d.day
    ∧ d.day ≤ daysInMonth d.year d.month))

/-- The month index of a date: `year * 12 + (month - 1)`. -/
def ymIdx (d : Date) : Nat := d.year * 12 + (d.month - 1)

/-- First day of the month with index `ym`. -/
def monthStart (ym : Nat) : Date := ⟨ym / 12, ym % 12 + 1, 1⟩

/-- Last day of the month with index `ym` (what the source computes as
first-of-next-month minus one day). -/
def monthEnd (ym : Nat) : Date :=
  ⟨ym / 12, ym % 12 + 1, daysInMonth (ym / 12) (ym % 12 + 1)⟩

/-- Successor day in the Gregorian calendar. -/
def nextDay (d : Date) : Date :=
  if d.day < daysInMonth d.year d.month then ⟨d.year, d.month, d.day + 1⟩
  else if d.month < 12 then ⟨d.year, d.month + 1, 1⟩
  else ⟨d.year + 1, 1, 1⟩

/-- Python's `min` on two dates. -/
def dateMin (a b : Date) : Date := if a.le b then a else b

def monthRangesAux (e : Date) : Nat → Nat → List (Date × Date)
  | _, 0 => []
  | ym, n + 1 =>
    if (monthStart ym).le e then
      (monthStart ym, dateMin (monthEnd ym) e) :: monthRangesAux e (ym + 1) n
    else []

def month_ranges (s e : Date) : List (Date × Date) :=
  monthRangesAux e (ymIdx s) (ymIdx e + 1 - ymIdx s)

/-- A day is covered by a window list when it lies inside some window
(both bounds inclusive). -/
def windowCovers (ws : List (Date × Date)) (d : Date) : Prop :=
  ∃ w ∈ ws, w.1.le d ∧ d.le w.2

instance (ws : List (Date × Date)) (d : Date) : Decidable (windowCovers ws d) :=
  decidable_of_iff (∃ w ∈ ws, w.1.le d ∧ d.le w.2) Iff.rfl

theorem daysInMonth_pos (y m : Nat) : 1 ≤ daysInMonth y m := by
  unfold daysInMonth
  split_ifs <;> omega

theorem date_le_refl (a : Date) : a.le a := by
  unfold Date.le
  omega

theorem date_le_trans {a b c : Date} (h1 : a.le b) (h2 : b.le c) : a.le c := by
  unfold Date.le at h1 h2 ⊢
  omega

theorem date_le_total (a b : Date) : a.le b ∨ b.le a := by
  unfold Date.le
  omega

theorem date_le_of_lt {a b : Date} (h : a.lt b) : a.le b := by
  unfold Date.lt at h
  unfold Date.le
  omega

theorem date_lt_of_le_of_lt {a b c : Date} (h1 : a.le b) (h2 : b.lt c) : a.lt c := by
  unfold Date.le at h1
  unfold Date.lt at h2 ⊢
  omega

theorem date_lt_of_lt_of_le {a b c : Date} (h1 : a.lt b) (h2 : b.le c) : a.lt c := by
  unfold Date.lt at h1 ⊢
  unfold Date.le at h2
  omega

theorem dateMin_eq_left {a b : Date} (h : a.le b) : dateMin a b = a := by
  unfold dateMin
  rw [if_pos h]

theorem dateMin_le_left (a b : Date) : (dateMin a b).le a := by
  unfold dateMin
  split_ifs with h
  · exact date_le_refl a
  · exact (date_le_total a b).resolve_left h

theorem date_le_min_iff (d a b : Date) : d.le (dateMin a b) ↔ (d.le a ∧ d.le b) := by
  unfold dateMin
  split_ifs with h
  · constructor
    · intro hd
      exact ⟨hd, date_le_trans hd h⟩
    · rintro ⟨h1, -⟩
      exact h1
  · have hba : b.le a := (date_le_total a b).resolve_left h
    constructor
    · intro hd
      exact ⟨date_le_trans hd hba, hd⟩
    · rintro ⟨-, h2⟩
      exact h2

theorem monthStart_le_monthStart {k1 k2 : Nat} (h : k1 ≤ k2) :
    (monthStart k1).le (monthStart k2) := by
  unfold monthStart Date.le
  dsimp only
  omega

theorem monthStart_le_iff (e : Date) (he : e.Valid) (ym : Nat) :
    (monthStart ym).le e ↔ ym ≤ ymIdx e := by
  obtain ⟨ey, em, ed⟩ := e
  obtain ⟨hm1, hm2, hd1, hd2⟩ := he
  unfold Date.le monthStart ymIdx
  dsimp only at hm1 hm2 hd1 hd2 ⊢
  omega

theorem le_monthEnd_iff (d : Date) (hd : d.Valid) (ym : Nat) :
    d.le (monthEnd ym) ↔ ymIdx d ≤ ym := by
  obtain ⟨dy, dm, dd⟩ := d
  obtain ⟨hm1, hm2, hd1, hd2⟩ := hd
  unfold Date.le monthEnd ymIdx
  dsimp only at hm1 hm2 hd1 hd2 ⊢
  constructor
  · rintro (h | ⟨h1, h2 | ⟨h2, h3⟩⟩) <;> omega
  · intro h
    rcases Nat.lt_trichotomy dy (ym / 12) with h1 | h1 | h1
    · exact Or.inl h1
    · rcases Nat.lt_trichotomy dm (ym % 12 + 1) with h2 | h2 | h2
      · exact Or.inr ⟨h1, Or.inl h2⟩
      · refine Or.inr ⟨h1, Or.inr ⟨h2, ?_⟩⟩
        rw [← h1, ← h2]
        exact hd2
      · exfalso
        omega
    · exfalso
      omega

theorem ymIdx_le_of_le {d e : Date} (hd : d.Valid) (he : e.Valid) (h : d.le e) :
    ymIdx d ≤ ymIdx e := by
  obtain ⟨dy, dm, dd⟩ := d
  obtain ⟨ey, em, ed⟩ := e
  obtain ⟨hm1, hm2, -, -⟩ := hd
  obtain ⟨hm1', hm2', -, -⟩ := he
  unfold Date.le at h
  unfold ymIdx
  dsimp only at hm1 hm2 hm1' hm2' h ⊢
  omega

theorem monthEnd_lt_monthStart_succ (ym : Nat) : (monthEnd ym).lt (monthStart (ym + 1)) := by
  unfold Date.lt monthEnd monthStart
  dsimp only
  omega

theorem nextDay_monthEnd (ym : Nat) : nextDay (monthEnd ym) = monthStart (ym + 1) := by
  unfold nextDay monthEnd monthStart
  dsimp only
  rw [if_neg (lt_irrefl _)]
  by_cases h : ym % 12 + 1 < 12
  · rw [if_pos h]
    simp only [Date.mk.injEq, and_true]
    omega
  · rw [if_neg h]
    simp only [Date.mk.injEq, and_true]
    omega

theorem windowCovers_cons (w : Date × Date) (ws : List (Date × Date)) (d : Date) :
    windowCovers (w :: ws) d ↔ ((w.1.le d ∧ d.le w.2) ∨ windowCovers ws d) := by
  unfold windowCovers
  constructor
  · rintro ⟨w', hw', h1, h2⟩
    rcases List.mem_cons.mp hw' with rfl | hw''
    · exact Or.inl ⟨h1, h2⟩
    · exact Or.inr ⟨w', hw'', h1, h2⟩
  · rintro (⟨h1, h2⟩ | ⟨w', hw', h1, h2⟩)
    · exact ⟨w, List.mem_cons_self w ws, h1, h2⟩
    · exact ⟨w', List.mem_cons_of_mem _ hw', h1, h2⟩

/-- The guard of the embedded loop fails exactly when the cursor's month
index passes the end date's, so the fuel `ymIdx e + 1 - ymIdx s` in
`month_ranges` reproduces the unbounded Python `while` loop. -/
theorem monthRanges_guard_exact (e : Date) (he : e.Valid) (ym : Nat) :
    ((monthStart ym).le e ↔ ym ≤ ymIdx e) := monthStart_le_iff e he ym

theorem monthRangesAux_mem (e : Date) :
    ∀ (n ym : Nat) (w : Date × Date), w ∈ monthRangesAux e ym n →
      ∃ k, ym ≤ k ∧ w = (monthStart k, dateMin (monthEnd k) e) := by
  intro n
  induction n with
  | zero =>
    intro ym w hw
    simp [monthRangesAux] at hw
  | succ n ih =>
    intro ym w hw
    simp only [monthRangesAux] at hw
    split_ifs at hw with hle
    · rcases List.mem_cons.mp hw with rfl | hw'
      · exact ⟨ym, le_refl ym, rfl⟩
      · obtain ⟨k, hk, hwk⟩ := ih (ym + 1) w hw'
        exact ⟨k, by omega, hwk⟩
    · cases hw

theorem monthRangesAux_chain (e : Date) :
    ∀ (n ym : Nat), List.Chain' (fun w1 w2 => w2.1 = nextDay w1.2) (monthRangesAux e ym n) := by
  intro n
  induction n with
  | zero =>
    intro ym
    simp [monthRangesAux]
  | succ n ih =>
    intro ym
    simp only [monthRangesAux]
    split_ifs with hguard
    · rw [List.chain'_cons']
      refine ⟨?_, ih (ym + 1)⟩
      intro b hb
      cases n with
      | zero => simp [monthRangesAux] at hb
      | succ n' =>
        simp only [monthRangesAux] at hb
        split_ifs at hb with hguard2
        · simp only [List.head?_cons, Option.mem_def, Option.some.injEq] at hb
          subst hb
          show monthStart (ym + 1) = nextDay (dateMin (monthEnd ym) e)
          have hEndLe : (monthEnd ym).le e :=
            date_le_trans (date_le_of_lt (monthEnd_lt_monthStart_succ ym)) hguard2
          rw [dateMin_eq_left hEndLe, nextDay_monthEnd]
        · simp at hb
    · exact List.chain'_nil

theorem monthRangesAux_pairwise (e : Date) :
    ∀ (n ym : Nat), List.Pairwise (fun w1 w2 => w1.2.lt w2.1) (monthRangesAux e ym n) := by
  intro n
  induction n with
  | zero =>
    intro ym
    simp [monthRangesAux]
  | succ n ih =>
    intro ym
    simp only [monthRangesAux]
    split_ifs with hguard
    · rw [List.pairwise_cons]
      refine ⟨?_, ih (ym + 1)⟩
      intro w' hw'
      obtain ⟨k, hk, rfl⟩ := monthRangesAux_mem e n (ym + 1) w' hw'
      show (dateMin (monthEnd ym) e).lt (monthStart k)
      exact date_lt_of_lt_of_le
        (date_lt_of_le_of_lt (dateMin_le_left _ _) (monthEnd_lt_monthStart_succ ym))
        (monthStart_le_monthStart hk)
    · exact List.Pairwise.nil

theorem monthRangesAux_covers (e : Date) (he : e.Valid) (d : Date) (hd : d.Valid) :
    ∀ (n ym : Nat), n = ymIdx e + 1 - ym →
      (windowCovers (monthRangesAux e ym n) d
        ↔ (ym ≤ ymIdx d ∧ ymIdx d ≤ ymIdx e ∧ d.le e)) := by
  intro n
  induction n with
  | zero =>
    intro ym hn
    constructor
    · intro h
      obtain ⟨w, hw, -⟩ := h
      simp [monthRangesAux] at hw
    · rintro ⟨h1, h2, -⟩
      exfalso
      omega
  | succ n ih =>
    intro ym hn
    have hym_le : ym ≤ ymIdx e := by omega
    have hguard : (monthStart ym).le e := (monthStart_le_iff e he ym).mpr hym_le
    simp only [monthRangesAux]
    rw [if_pos hguard, windowCovers_cons, ih (ym + 1) (by omega)]
    show ((monthStart ym).le d ∧ d.le (dateMin (monthEnd ym) e)) ∨ _ ↔ _
    rw [date_le_min_iff, monthStart_le_iff d hd ym, le_monthEnd_iff d hd ym]
    constructor
    · rintro (⟨h1, h2, h3⟩ | ⟨h1, h2, h3⟩)
      · exact ⟨h1, by omega, h3⟩
      · exact ⟨by omega, h2, h3⟩
    · rintro ⟨h1, h2, h3⟩
      by_cases hcase : ymIdx d = ym
      · exact Or.inl ⟨by omega, by omega, h3⟩
      · exact Or.inr ⟨by omega, h2, h3⟩

/-- Claim C1, counterexample.  For the requested range
2023-03-15..2023-04-30 the first window is floored to 2023-03-01, so the
day 2023-03-01 - outside the requested interval - is covered by the
returned windows. -/
theorem month_ranges_counterexample :
    windowCovers (month_ranges ⟨2023, 3, 15⟩ ⟨2023, 4, 30⟩) ⟨2023, 3, 1⟩
    ∧ ¬ Date.le ⟨2023, 3, 15⟩ ⟨2023, 3, 1⟩ := by
  constructor <;> decide

/-- Claim C1, amended.  For valid dates `s ≤ e`: the windows of
`month_ranges s e` are contiguous (each begins the day after the
previous ends), pairwise non-overlapping (each ends strictly before the
next begins), and their union is exactly the inclusive interval from the
first day of `s`'s month to `e`; this equals `[s, e]` precisely when `s`
is month-aligned, and when `s` is mid-month the days of `s`'s month
before `s` are also covered (the deliberate flooring quirk). -/
theorem month_ranges_amended (s e : Date) (hs : s.Valid) (he : e.Valid) (hse : s.le e) :
    monthStart (ymIdx s) = ⟨s.year, s.month, 1⟩
    ∧ List.Chain' (fun w1 w2 => w2.1 = nextDay w1.2) (month_ranges s e)
    ∧ List.Pairwise (fun w1 w2 => w1.2.lt w2.1) (month_ranges s e)
    ∧ ∀ d : Date, d.Valid →
        (windowCovers (month_ranges s e) d ↔ ((monthStart (ymIdx s)).le d ∧ d.le e)) := by
  refine ⟨?_, monthRangesAux_chain e _ _, monthRangesAux_pairwise e _ _, ?_⟩
  · obtain ⟨sy, sm, sd⟩ := s
    obtain ⟨hm1, hm2, -, -⟩ := hs
    unfold monthStart ymIdx
    dsimp only at hm1 hm2 ⊢
    simp only [Date.mk.injEq, and_true]
    omega
  · intro d hd
    have h := monthRangesAux_covers e he d hd (ymIdx e + 1 - ymIdx s) (ymIdx s) rfl
    rw [show month_ranges s e = monthRangesAux e (ymIdx s) (ymIdx e + 1 - ymIdx s) from rfl,
      h, monthStart_le_iff d hd (ymIdx s)]
    constructor
    · rintro ⟨h1, -, h3⟩
      exact ⟨h1, h3⟩
    · rintro ⟨h1, h3⟩
      exact ⟨h1, ymIdx_le_of_le hd he h3, h3⟩

/-- Witness for `month_ranges_amended` at the test range
2023-03-15..2023-04-30, evaluating coverage at 2023-03-20. -/
theorem month_ranges_amended_witness :
    Date.Valid ⟨2023, 3, 15⟩ ∧ Date.Valid ⟨2023, 4, 30⟩
    ∧ Date.le ⟨2023, 3, 15⟩ ⟨2023, 4, 30⟩ ∧ Date.Valid ⟨2023, 3, 20⟩
    ∧ (windowCovers (month_ranges ⟨2023, 3, 15⟩ ⟨2023, 4, 30⟩) ⟨2023, 3, 20⟩
        ↔ ((monthStart (ymIdx ⟨2023, 3, 15⟩)).le ⟨2023, 3, 20⟩
            ∧ Date.le ⟨2023, 3, 20⟩ ⟨2023, 4, 30⟩)) := by
  refine ⟨by decide, by decide, by decide, by decide, ?_⟩
  exact (month_ranges_amended ⟨2023, 3, 15⟩ ⟨2023, 4, 30⟩ (by decide) (by decide)
    (by decide)).2.2.2 ⟨2023, 3, 20⟩ (by decide)

end TmdbPipeline
